import Mathlib

/-! OrderedPartitions: scoring contexts, priority sort and the partition-graph sweeps.

A shallow embedding of `score.hpp`, of `sort_by_priority` and `rational_obj`
(`gtest_all.cpp`) and of the sweep drivers of `python_graph.cpp`, with models of the three
solvers (`DPSolver`, `PartitionGraph`, `LTSSSolver`) after the specification.

Conventions of the embedding.

* `float` values are elements of a linearly ordered field `K` (exact arithmetic); the
  definitions run on `ℚ`.  `std::log` is a parameter `ln : K → K`.
* `std::vector<float>` is `List K`; `std::vector<std::vector<float>>` is `List (List K)`.
* A function that can throw returns `Except Exception _`.
* Sizes and indices the code only uses as non-negative values (`n_`, the arguments of
  `compute_score`) are `Nat`; the signed index expressions `i-1`, `j-2`, `j-1` of
  `compute_partial_sums` and the `int` arguments of the sweeps are `Int`.
* `PartitionGraph` (declared in `graph.hpp`) is a parameter of the sweeps; a model of it
  after the specification is used where a concrete graph is needed.
* `DP.hpp`, `graph.hpp` and `LTSS.hpp` are not among the sources: the definitions whose
  comment starts `Modelled from the spec:` follow sections 3 and 4.3 to 4.5 of the
  specification.
* Virtual dispatch is decided by the dynamic class of the object, kept in the field `cls`.
-/

namespace Objectives

/-- The enumeration `objective_fn` of `score.hpp`. -/
inductive objective_fn where
  | Gaussian
  | Poisson
  | RationalScore
  deriving DecidableEq, Repr

/-- The exceptions of `score.hpp`: the only one is `optimizationFlagException`. -/
inductive Exception where
  | optimizationFlagException
  deriving DecidableEq, Repr

/-- The three concrete classes deriving from `ParametricContext`. -/
inductive ContextClass where
  | PoissonContext
  | GaussianContext
  | RationalScoreContext
  deriving DecidableEq, Repr

/-- The data members of `ParametricContext`, with the dynamic class of the object. -/
structure ParametricContext (K : Type) where
  cls : ContextClass
  a_ : List K
  b_ : List K
  n_ : Nat
  a_sums_ : List (List K)
  b_sums_ : List (List K)
  parametric_dist_ : objective_fn
  risk_partitioning_objective_ : Bool
  use_rational_optimization_ : Bool

section Score

variable {K : Type} [LinearOrderedField K]

/-- The call `std::accumulate(v.begin()+i, v.begin()+j, 0.)`: a left fold of `+` over the
elements at positions `i, ..., j-1`, starting from `0`. -/
def accumulate (v : List K) (i j : Nat) : K :=
  ((v.drop i).take (j - i)).foldl (fun acc x => acc + x) 0

/-- A read `v[idx]` with a signed index; `oob` is the value an out-of-range read returns. -/
def readAt (oob : K) (v : List K) (idx : Int) : K :=
  if 0 ≤ idx then v.getD idx.toNat oob else oob

/-- A read `t[i][j]` of a table. -/
def tableGet (t : List (List K)) (i j : Nat) : K :=
  (t.getD i []).getD j 0

/-- A write `t[i][j] = x` to a table. -/
def tableSet (t : List (List K)) (i j : Nat) (x : K) : List (List K) :=
  t.set i ((t.getD i []).set j x)

/-- The value `std::numeric_limits<float>::min()`, the smallest positive normal float. -/
def FLT_MIN : K := 1 / 2 ^ 126

/-- The value `std::numeric_limits<float>::max()`, the largest finite float. -/
def FLT_MAX : K := 340282346638528859811704183484516925440

/-- `PoissonContext::compute_score_multclust`. -/
def PoissonContext.compute_score_multclust (ln : K → K) (ctx : ParametricContext K)
    (i j : Nat) : K :=
  let C := accumulate ctx.a_ i j
  let B := accumulate ctx.b_ i j
  if C > B then C * ln (C / B) + B - C else 0

/-- `PoissonContext::compute_score_riskpart`. -/
def PoissonContext.compute_score_riskpart (ln : K → K) (ctx : ParametricContext K)
    (i j : Nat) : K :=
  let C := accumulate ctx.a_ i j
  let B := accumulate ctx.b_ i j
  C * ln (C / B)

/-- `PoissonContext::compute_ambient_score_multclust`. -/
def PoissonContext.compute_ambient_score_multclust (ln : K → K) (a b : K) : K :=
  a * ln (a / b) + b - a

/-- `PoissonContext::compute_ambient_score_riskpart`. -/
def PoissonContext.compute_ambient_score_riskpart (ln : K → K) (a b : K) : K :=
  if a > b then a * ln (a / b) + b - a else 0

/-- `GaussianContext::compute_score_multclust`. -/
def GaussianContext.compute_score_multclust (ctx : ParametricContext K) (i j : Nat) : K :=
  let C := accumulate ctx.a_ i j
  let B := accumulate ctx.b_ i j
  if C > B then
    let summand := C ^ 2 / B
    (1 / 2) * (summand - 1)
  else 0

/-- `GaussianContext::compute_score_riskpart`. -/
def GaussianContext.compute_score_riskpart (ctx : ParametricContext K) (i j : Nat) : K :=
  let C := accumulate ctx.a_ i j
  let B := accumulate ctx.b_ i j
  C * C / 2 / B

/-- `GaussianContext::compute_ambient_score_multclust`. -/
def GaussianContext.compute_ambient_score_multclust (a b : K) : K :=
  a * a / 2 / b + b / 2 - a

/-- `GaussianContext::compute_ambient_score_riskpart`. -/
def GaussianContext.compute_ambient_score_riskpart (a b : K) : K :=
  if a > b then a * a / 2 / b + b / 2 - a else 0

/-- The state of the loops of `RationalScoreContext::compute_partial_sums`: the local
`a_cum` and the two tables. -/
structure PartialSumsState (K : Type) where
  a_cum : K
  a_sums : List (List K)
  b_sums : List (List K)

/-- The first loop of `compute_partial_sums`:
`for (i = 0; i < n_; ++i) { a_sums_[i][i] = 0.; b_sums_[i][i] = 0.; }`. -/
def RationalScoreContext.initDiagonal (n : Nat) (st : PartialSumsState K) :
    PartialSumsState K :=
  (List.range n).foldl
    (fun s i => { s with a_sums := tableSet s.a_sums i i 0, b_sums := tableSet s.b_sums i i 0 })
    st

/-- One pass of the body of the inner loop of `compute_partial_sums`, at `(i, j)`. -/
def RationalScoreContext.innerBody (oob : K) (a b : List K) (i : Nat)
    (s : PartialSumsState K) (j : Nat) : PartialSumsState K :=
  let a_cum := s.a_cum + readAt oob a ((j : Int) - 2)
  let aj := readAt oob a ((j : Int) - 1)
  let bj := readAt oob b ((j : Int) - 1)
  { a_cum := a_cum
    a_sums := tableSet s.a_sums i j (tableGet s.a_sums i (j - 1) + (2 * a_cum + aj) * aj)
    b_sums := tableSet s.b_sums i j (tableGet s.b_sums i (j - 1) + bj) }

/-- One pass of the body of the outer loop of `compute_partial_sums`, at `i`:
`a_cum = -a_[i-1]; for (j = i+1; j <= n_; ++j) { ... }`. -/
def RationalScoreContext.outerBody (oob : K) (a b : List K) (n : Nat)
    (s : PartialSumsState K) (i : Nat) : PartialSumsState K :=
  (List.range' (i + 1) (n - i)).foldl
    (RationalScoreContext.innerBody oob a b i)
    { s with a_cum := - readAt oob a ((i : Int) - 1) }

/-- `RationalScoreContext::compute_partial_sums`.  The local `a_cum` is declared without
an initial value; it is assigned before its first use, so the embedding starts it at `0`. -/
def RationalScoreContext.compute_partial_sums (oob : K) (ctx : ParametricContext K) :
    ParametricContext K :=
  let st0 : PartialSumsState K :=
    { a_cum := 0
      a_sums := List.replicate ctx.n_ (List.replicate (ctx.n_ + 1) FLT_MIN)
      b_sums := List.replicate ctx.n_ (List.replicate (ctx.n_ + 1) FLT_MIN) }
  let st1 := RationalScoreContext.initDiagonal ctx.n_ st0
  let st2 := (List.range ctx.n_).foldl
    (RationalScoreContext.outerBody oob ctx.a_ ctx.b_ ctx.n_) st1
  { ctx with a_sums_ := st2.a_sums, b_sums_ := st2.b_sums }

/-- `RationalScoreContext::compute_score_multclust_optimized`. -/
def RationalScoreContext.compute_score_multclust_optimized (ctx : ParametricContext K)
    (i j : Nat) : K :=
  tableGet ctx.a_sums_ i j / tableGet ctx.b_sums_ i j

/-- `RationalScoreContext::compute_score_multclust`. -/
def RationalScoreContext.compute_score_multclust (ctx : ParametricContext K)
    (i j : Nat) : K :=
  (accumulate ctx.a_ i j) ^ 2 / accumulate ctx.b_ i j

/-- `RationalScoreContext::compute_score_riskpart`. -/
def RationalScoreContext.compute_score_riskpart (ctx : ParametricContext K)
    (i j : Nat) : K :=
  RationalScoreContext.compute_score_multclust ctx i j

/-- `RationalScoreContext::compute_score_riskpart_optimized`. -/
def RationalScoreContext.compute_score_riskpart_optimized (ctx : ParametricContext K)
    (i j : Nat) : K :=
  RationalScoreContext.compute_score_multclust_optimized ctx i j

/-- `RationalScoreContext::compute_ambient_score_multclust`. -/
def RationalScoreContext.compute_ambient_score_multclust (a b : K) : K :=
  a * a / b

/-- `RationalScoreContext::compute_ambient_score_riskpart`. -/
def RationalScoreContext.compute_ambient_score_riskpart (a b : K) : K :=
  a * a / b

/-- The virtual `compute_partial_sums`: `PoissonContext` and `GaussianContext` throw,
`RationalScoreContext` fills the tables. -/
def compute_partial_sums (oob : K) (ctx : ParametricContext K) :
    Except Exception (ParametricContext K) :=
  match ctx.cls with
  | .PoissonContext => .error .optimizationFlagException
  | .GaussianContext => .error .optimizationFlagException
  | .RationalScoreContext => .ok (RationalScoreContext.compute_partial_sums oob ctx)

/-- The virtual `compute_score_multclust`. -/
def compute_score_multclust (ln : K → K) (ctx : ParametricContext K) (i j : Nat) :
    Except Exception K :=
  match ctx.cls with
  | .PoissonContext => .ok (PoissonContext.compute_score_multclust ln ctx i j)
  | .GaussianContext => .ok (GaussianContext.compute_score_multclust ctx i j)
  | .RationalScoreContext => .ok (RationalScoreContext.compute_score_multclust ctx i j)

/-- The virtual `compute_score_riskpart`. -/
def compute_score_riskpart (ln : K → K) (ctx : ParametricContext K) (i j : Nat) :
    Except Exception K :=
  match ctx.cls with
  | .PoissonContext => .ok (PoissonContext.compute_score_riskpart ln ctx i j)
  | .GaussianContext => .ok (GaussianContext.compute_score_riskpart ctx i j)
  | .RationalScoreContext => .ok (RationalScoreContext.compute_score_riskpart ctx i j)

/-- The virtual `compute_score_multclust_optimized`. -/
def compute_score_multclust_optimized (ctx : ParametricContext K) (i j : Nat) :
    Except Exception K :=
  match ctx.cls with
  | .PoissonContext => .error .optimizationFlagException
  | .GaussianContext => .error .optimizationFlagException
  | .RationalScoreContext =>
      .ok (RationalScoreContext.compute_score_multclust_optimized ctx i j)

/-- The virtual `compute_score_riskpart_optimized`. -/
def compute_score_riskpart_optimized (ctx : ParametricContext K) (i j : Nat) :
    Except Exception K :=
  match ctx.cls with
  | .PoissonContext => .error .optimizationFlagException
  | .GaussianContext => .error .optimizationFlagException
  | .RationalScoreContext =>
      .ok (RationalScoreContext.compute_score_riskpart_optimized ctx i j)

/-- The virtual `compute_ambient_score_multclust`. -/
def compute_ambient_score_multclust (ln : K → K) (ctx : ParametricContext K) (a b : K) : K :=
  match ctx.cls with
  | .PoissonContext => PoissonContext.compute_ambient_score_multclust ln a b
  | .GaussianContext => GaussianContext.compute_ambient_score_multclust a b
  | .RationalScoreContext => RationalScoreContext.compute_ambient_score_multclust a b

/-- The virtual `compute_ambient_score_riskpart`. -/
def compute_ambient_score_riskpart (ln : K → K) (ctx : ParametricContext K) (a b : K) : K :=
  match ctx.cls with
  | .PoissonContext => PoissonContext.compute_ambient_score_riskpart ln a b
  | .GaussianContext => GaussianContext.compute_ambient_score_riskpart a b
  | .RationalScoreContext => RationalScoreContext.compute_ambient_score_riskpart a b

/-- `ParametricContext::compute_score`. -/
def compute_score (ln : K → K) (ctx : ParametricContext K) (i j : Nat) :
    Except Exception K :=
  if ctx.risk_partitioning_objective_ then
    if ctx.use_rational_optimization_ then
      compute_score_riskpart_optimized ctx i j
    else
      compute_score_riskpart ln ctx i j
  else
    if ctx.use_rational_optimization_ then
      compute_score_multclust_optimized ctx i j
    else
      compute_score_multclust ln ctx i j

/-- `ParametricContext::compute_ambient_score`. -/
def compute_ambient_score (ln : K → K) (ctx : ParametricContext K) (a b : K) : K :=
  if ctx.risk_partitioning_objective_ then
    compute_ambient_score_riskpart ln ctx a b
  else
    compute_ambient_score_multclust ln ctx a b

/-- The constructors `PoissonContext(...)`, `GaussianContext(...)` and
`RationalScoreContext(...)`, `cls` naming the class constructed: the base constructor stores
the arguments and leaves both tables empty, then the body runs
`if (use_rational_optimization) compute_partial_sums();`. -/
def construct (cls : ContextClass) (oob : K) (a b : List K) (n : Nat)
    (parametric_dist : objective_fn) (risk_partitioning_objective : Bool)
    (use_rational_optimization : Bool) : Except Exception (ParametricContext K) :=
  let ctx : ParametricContext K :=
    { cls := cls
      a_ := a
      b_ := b
      n_ := n
      a_sums_ := []
      b_sums_ := []
      parametric_dist_ := parametric_dist
      risk_partitioning_objective_ := risk_partitioning_objective
      use_rational_optimization_ := use_rational_optimization }
  if use_rational_optimization then compute_partial_sums oob ctx else .ok ctx

/-- The table of the specification (section 4.2) for `score(i, j)`, as a function of the
class, the mode and the two range sums `C` and `B`. -/
def scoreTable (ln : K → K) (cls : ContextClass) (risk_partitioning : Bool) (C B : K) : K :=
  match cls, risk_partitioning with
  | .GaussianContext, false => if C > B then (C ^ 2 / B - 1) / 2 else 0
  | .GaussianContext, true => C ^ 2 / (2 * B)
  | .PoissonContext, false => if C > B then C * ln (C / B) + B - C else 0
  | .PoissonContext, true => C * ln (C / B)
  | .RationalScoreContext, _ => C ^ 2 / B

/-- The sum of the entries of `v` at the positions `i ≤ k < j`. -/
def rangeSum (v : List K) (i j : Nat) : K :=
  ∑ k in Finset.Ico i j, v.getD k 0

/-- The two values claim C4 compares, for the one-item context `a = [x]`, `b = [y]` of class
`cls` built without optimization: `(compute_ambient_score(x, y), compute_score(0, 1))`. -/
def single_item_scores (ln : K → K) (cls : ContextClass) (oob : K) (dist : objective_fn)
    (risk_partitioning : Bool) (x y : K) : Except Exception (K × K) := do
  let ctx ← construct cls oob [x] [y] 1 dist risk_partitioning false
  let score ← compute_score ln ctx 0 1
  pure (compute_ambient_score ln ctx x y, score)

end Score

end Objectives

section PrioritySort

variable {K : Type} [LinearOrderedField K]

/-- The comparator handed to `std::stable_sort` in `sort_by_priority`:
`[&a, &b](int i, int j) { return (a[i]/b[i]) < (a[j]/b[j]); }`. -/
def priority_comp (a b : List K) (i j : Nat) : Bool :=
  decide (a.getD i 0 / b.getD i 0 < a.getD j 0 / b.getD j 0)

/-- The call `std::stable_sort(first, last, comp)`, as a stable insertion sort: an element
is inserted in front of the first element it must not follow, that is, in front of the first
`y` with `comp y x` false. -/
def stable_sort {α : Type} (comp : α → α → Bool) (l : List α) : List α :=
  l.insertionSort (fun x y => comp y x = false)

/-- The index vector of `sort_by_priority` after the sort: `std::iota` fills
`0, ..., a.size()-1` and `std::stable_sort` reorders it. -/
def sort_indices (a b : List K) : List Nat :=
  stable_sort (priority_comp a b) (List.range a.length)

/-- The call `std::copy(src.begin(), src.end(), dst.begin())`: `src` overwrites the first
`src.size()` elements of `dst`. -/
def copy_into (src dst : List K) : List K :=
  src ++ dst.drop src.length

/-- `sort_by_priority` of `gtest_all.cpp`; the result is the final content of the two
vectors taken by reference. -/
def sort_by_priority (a b : List K) : List K × List K :=
  let ind := sort_indices a b
  let a_s := ind.map (fun i => a.getD i 0)
  let b_s := ind.map (fun i => b.getD i 0)
  (copy_into a_s a, copy_into b_s b)

end PrioritySort

section Sweep

variable {K : Type} [LinearOrderedField K]

/-- What the sweep drivers read from a constructed `PartitionGraph` object:
`get_optimal_subsets_extern()` and `get_optimal_weight_extern()`. -/
structure PartitionGraph (K : Type) where
  optimal_subsets : List (List Int)
  optimal_weight : K

/-- The loop `for (int i=T; i>1; --i)` of `sweep_best__PG`, from the value `i` on; the state
is `(best_weight, weight, subsets)`.  `PG n i a b` is the object `PartitionGraph pg{n, i, a, b}`
(the class is declared in `graph.hpp`). -/
def sweep_best__PG.loop (PG : Int → Int → List K → List K → PartitionGraph K)
    (n : Int) (a b : List K) (i : Int) (st : K × K × List (List Int)) :
    K × K × List (List Int) :=
  if 1 < i then
    let pg := PG n i a b
    let weight := pg.optimal_weight
    let st1 : K × K × List (List Int) :=
      if weight < st.1 then (weight, weight, pg.optimal_subsets) else (st.1, weight, st.2.2)
    sweep_best__PG.loop PG n a b (i - 1) st1
  else st
termination_by (i - 1).toNat
decreasing_by omega

/-- `sweep_best__PG` of `python_graph.cpp`.  The local `weight` is declared without an
initial value; `weight0` is the value it holds before its first assignment. -/
def sweep_best__PG (PG : Int → Int → List K → List K → PartitionGraph K) (weight0 : K)
    (n T : Int) (a b : List K) : List (List Int) × K :=
  let st := sweep_best__PG.loop PG n a b T (Objectives.FLT_MAX, weight0, [])
  (st.2.2, st.2.1)

/-- The loop `for (int i=T; i>1; --i)` of `sweep__PG`, from the value `i` on; the state is
the vector `r`. -/
def sweep__PG.loop (PG : Int → Int → List K → List K → PartitionGraph K)
    (n : Int) (a b : List K) (i : Int) (r : List (List (List Int) × K)) :
    List (List (List Int) × K) :=
  if 1 < i then
    let pg := PG n i a b
    let weight := pg.optimal_weight
    let subsets := pg.optimal_subsets
    sweep__PG.loop PG n a b (i - 1) (r ++ [(subsets, weight)])
  else r
termination_by (i - 1).toNat
decreasing_by omega

/-- `sweep__PG` of `python_graph.cpp`. -/
def sweep__PG (PG : Int → Int → List K → List K → PartitionGraph K)
    (n T : Int) (a b : List K) : List (List (List Int) × K) :=
  sweep__PG.loop PG n a b T []

end Sweep

section PartitionGraphModel

variable {K : Type} [LinearOrderedField K]

/-- Modelled from the spec: the edge weight of the partition graph (`graph.hpp` is not
among the sources).  Section 3: the edge from `(t-1, i)` to `(t, j)`, `0 ≤ i < j ≤ n`, has
weight `−score(i, j)`, `score` being the RationalScore functional `C²/B` of the range. -/
def PartitionGraph.edge_weight (a b : List K) (i j : Nat) : K :=
  - ((Objectives.accumulate a i j) ^ 2 / Objectives.accumulate b i j)

/-- Modelled from the spec: one node of the layered relaxation (section 4.5).  For node `j`
of a layer, the minimum over the predecessors `i < j` of the previous layer of
`dist(i) + weight(i, j)`, with the predecessor realising it; on a tie the smallest index is
kept.  `none` marks a node no path reaches. -/
def PartitionGraph.relax_node (a b : List K) (prev : List (Option (K × Nat))) (j : Nat) :
    Option (K × Nat) :=
  (List.range j).foldl
    (fun best i =>
      match prev.getD i none with
      | none => best
      | some (d, _) =>
        match best with
        | none => some (d + PartitionGraph.edge_weight a b i j, i)
        | some (bd, bi) =>
          if d + PartitionGraph.edge_weight a b i j < bd then
            some (d + PartitionGraph.edge_weight a b i j, i)
          else some (bd, bi))
    none

/-- Modelled from the spec: the layers `t, t-1, ..., 0` of the relaxation (latest first),
each with the nodes `0..n`; in layer `0` only the source `(0, 0)` is reached, at distance
`0`. -/
def PartitionGraph.layers (n : Nat) (a b : List K) : Nat → List (List (Option (K × Nat)))
  | 0 => [(List.range (n + 1)).map (fun j => if j = 0 then some (0, 0) else none)]
  | t + 1 =>
    (List.range (n + 1)).map
        (PartitionGraph.relax_node a b ((PartitionGraph.layers n a b t).headD []))
      :: PartitionGraph.layers n a b t

/-- Modelled from the spec: the decoding of section 4.5.  Walking the predecessors from
node `j` of the latest layer back to the source gives `0 = j_0 < ... < j_T`; part `t` lists
the indices `j_{t-1}, ..., j_t - 1`. -/
def PartitionGraph.decode : List (List (Option (K × Nat))) → Nat → List (List Int)
  | [], _ => []
  | [_], _ => []
  | layer :: rest, j =>
    match layer.getD j none with
    | none => []
    | some (_, i) =>
      PartitionGraph.decode rest i ++ [(List.range' i (j - i)).map (fun k => (k : Int))]

/-- Modelled from the spec: the object `PartitionGraph(n, T, a, b)` of `graph.hpp`, as the
sweeps read it: the decoded subsets of the shortest path from `(0, 0)` to `(T, n)` and that
path's total weight (`0` when the sink is not reached). -/
def PartitionGraph.solve (n T : Int) (a b : List K) : PartitionGraph K :=
  let ls := PartitionGraph.layers n.toNat a b T.toNat
  { optimal_subsets := PartitionGraph.decode ls n.toNat
    optimal_weight :=
      match (ls.headD []).getD n.toNat none with
      | none => 0
      | some (d, _) => d }

end PartitionGraphModel

section TestOracle

variable {K : Type} [LinearOrderedField K]

/-- `rational_obj` of `gtest_all.cpp`: `0` on an empty range, else `num*num/den` with `num`
and `den` accumulated by the loop `for (ind = start; ind < end; ++ind)`. -/
def rational_obj (a b : List K) (start stop : Nat) : K :=
  if start = stop then 0
  else
    let sums := (List.range' start (stop - start)).foldl
      (fun (s : K × K) ind => (s.1 + a.getD ind 0, s.2 + b.getD ind 0)) (0, 0)
    sums.1 * sums.1 / sums.2

end TestOracle

section DPSolverModel

variable {K : Type} [LinearOrderedField K]

/-- What the tests read from a constructed `DPSolver` object:
`get_optimal_subsets_extern()` and `get_score_by_subset_extern()`. -/
structure DPSolver (K : Type) where
  optimal_subsets : List (List Int)
  score_by_subset : List K

/-- Modelled from the spec: the update of a running arg-max (`DP.hpp` is not among the
sources).  The candidate split `m` with aggregate `c` replaces the best one so far only
when `c` is strictly larger, so of several maximal splits the smallest is kept (the
specification names the arg-max without a tie rule; this is the canonical choice it states
for the graph solver). -/
def DPSolver.better (best : Option (K × Nat)) (c : K) (m : Nat) : Option (K × Nat) :=
  match best with
  | none => some (c, m)
  | some (bv, bm) => if c > bv then some (c, m) else some (bv, bm)

/-- Modelled from the spec: the entry `(score[l][t], split[l][t])` of the DP tables of
section 4.4, `none` where `l` items cannot make `t` non-empty parts.
`score[l][1] = ctx.score(0, l)` for `l ≥ 1`, with split `0`;
`score[l][t] = max score[m][t-1] + ctx.score(m, l)` and `split[l][t]` its arg-max, over the
`m < l` for which the first `m` items make `t-1` non-empty parts, `t-1 ≤ m`.  (Section 3
defines `score[l][t]` as the best aggregate for the first `l` items in `t` parts and section
8 has `T = n` return singletons; the range printed in section 4.4, `t ≤ m < l`, leaves
`score[n][n]` without a candidate and is read as `t-1 ≤ m < l`.) -/
def DPSolver.cell (score : Nat → Nat → K) : Nat → Nat → Option (K × Nat)
  | 0, _ => none
  | 1, l => if 1 ≤ l then some (score 0 l, 0) else none
  | t + 2, l =>
    (List.range' (t + 1) (l - (t + 1))).foldl
      (fun best m =>
        match DPSolver.cell score (t + 1) m with
        | none => best
        | some (v, _) => DPSolver.better best (v + score m l) m)
      none

/-- Modelled from the spec: the reconstruction of section 4.4.  From `(l, t)`, set
`L_t = split[l][t]`, `R_t = l`, continue from `(L_t, t-1)` until `t = 0`; the parts
`(L, R)` are emitted in the order `1..t`. -/
def DPSolver.parts (score : Nat → Nat → K) : Nat → Nat → List (Nat × Nat)
  | 0, _ => []
  | t + 1, l =>
    match DPSolver.cell score (t + 1) l with
    | none => []
    | some (_, m) => DPSolver.parts score t m ++ [(m, l)]

/-- Modelled from the spec: the class of scoring context for a functional family. -/
def DPSolver.context_class : Objectives.objective_fn → Objectives.ContextClass
  | Objectives.objective_fn.Gaussian => Objectives.ContextClass.GaussianContext
  | Objectives.objective_fn.Poisson => Objectives.ContextClass.PoissonContext
  | Objectives.objective_fn.RationalScore => Objectives.ContextClass.RationalScoreContext

/-- Modelled from the spec: the object
`DPSolver(n, T, a, b, dist, risk_partitioning, use_rational_optimization)` of `DP.hpp`, as
the tests read it.  The scoring context is constructed first (its exception propagates);
the tables are filled through `compute_score`, which does not throw once the construction
has succeeded; each part `[L, R)` is listed as `L, ..., R-1` with its score. -/
def DPSolver.solve (ln : K → K) (oob : K) (n T : Int) (a b : List K)
    (parametric_dist : Objectives.objective_fn) (risk_partitioning_objective : Bool)
    (use_rational_optimization : Bool) : Except Objectives.Exception (DPSolver K) := do
  let ctx ← Objectives.construct (DPSolver.context_class parametric_dist) oob a b n.toNat
    parametric_dist risk_partitioning_objective use_rational_optimization
  let score : Nat → Nat → K := fun i j =>
    match Objectives.compute_score ln ctx i j with
    | .ok x => x
    | .error _ => 0
  let parts := DPSolver.parts score T.toNat n.toNat
  pure
    { optimal_subsets :=
        parts.map (fun p => (List.range' p.1 (p.2 - p.1)).map (fun k : Nat => (k : Int)))
      score_by_subset := parts.map (fun p => score p.1 p.2) }

end DPSolverModel

section LTSSSolverModel

variable {K : Type} [LinearOrderedField K]

/-- What the tests read from a constructed `LTSSSolver` object:
`get_optimal_subset_extern()`, with the score of that subset. -/
structure LTSSSolver (K : Type) where
  optimal_subset : List Int
  optimal_score : K

/-- Modelled from the spec: the range `LTSSSolver` selects (`LTSS.hpp` is not among the
sources).  Section 4.3: the contiguous range `[i, j)` maximizing `C²/B`; on a tie the lowest
starting index wins, then the shortest range.  The ranges are visited by ascending start,
then ascending length, and a range replaces the best one only on a strictly larger
score. -/
def LTSSSolver.scan (n : Nat) (a b : List K) : Option (K × Nat × Nat) :=
  (List.range n).foldl
    (fun best i =>
      (List.range' (i + 1) (n - i)).foldl
        (fun best j =>
          match best with
          | none => some ((Objectives.accumulate a i j) ^ 2 / Objectives.accumulate b i j, i, j)
          | some (bv, bi, bj) =>
            if (Objectives.accumulate a i j) ^ 2 / Objectives.accumulate b i j > bv then
              some ((Objectives.accumulate a i j) ^ 2 / Objectives.accumulate b i j, i, j)
            else some (bv, bi, bj))
        best)
    none

/-- Modelled from the spec: the object `LTSSSolver(n, a, b)` of `LTSS.hpp`, as the tests
read it: the ordered list of the indices of the selected range. -/
def LTSSSolver.solve (n : Int) (a b : List K) : LTSSSolver K :=
  match LTSSSolver.scan n.toNat a b with
  | none => { optimal_subset := [], optimal_score := 0 }
  | some (v, i, j) =>
    { optimal_subset := (List.range' i (j - i)).map (fun k : Nat => (k : Int))
      optimal_score := v }

end LTSSSolverModel

section OrderedPartition

/-- The property the `OrderedProperty` tests look for in the subsets a solver returns for
`n` items and `T` parts: there are `T` index lists, each a non-empty run of consecutive
increasing integers (adjacent elements differ by exactly `1`), and concatenated in part
order they are `0, 1, ..., n-1`. -/
def is_ordered_partition (n T : Nat) (subsets : List (List Int)) : Prop :=
  subsets.length = T ∧
  (∀ p ∈ subsets, p ≠ [] ∧ List.Chain' (fun x y => y = x + 1) p) ∧
  subsets.flatten = (List.range n).map (fun k : Nat => (k : Int))

end OrderedPartition

section RangeScore

variable {K : Type} [LinearOrderedField K]

/-- The RationalScore `C²/B` of the range `[i, j)`, as the unoptimized
`RationalScoreContext::compute_score_multclust` computes it. -/
def range_score (a b : List K) (i j : Nat) : K :=
  (Objectives.accumulate a i j) ^ 2 / Objectives.accumulate b i j

/-- The pair `(-score, index)`: how a DP table entry reads as a shortest-path entry. -/
def neg_entry (p : K × Nat) : K × Nat :=
  (-p.1, p.2)

end RangeScore

section PrioritySorted

variable {K : Type} [LinearOrderedField K]

/-- The input is presented in priority order: the ratios `a_k / b_k` are ascending. -/
def priority_sorted (a b : List K) : Prop :=
  ∀ k, k + 1 < a.length → a.getD k 0 / b.getD k 0 ≤ a.getD (k + 1) 0 / b.getD (k + 1) 0

end PrioritySorted

section AccessTrace

/-- The containers `RationalScoreContext::compute_partial_sums` indexes. -/
inductive Container where
  | a_
  | b_
  | a_sums_
  | b_sums_
  deriving DecidableEq, Repr

/-- The indexing expressions in the text of `compute_partial_sums`, in source order:
`a_sums_[i][i]` and `b_sums_[i][i]` of the first loop; `a_[i-1]` of `a_cum = -a_[i-1]`;
`a_[j-2]` of `a_cum += a_[j-2]`; `a_sums_[i][j-1]`, the two `a_[j-1]` and the assigned
`a_sums_[i][j]` of the second statement; `b_sums_[i][j-1]`, `b_[j-1]` and the assigned
`b_sums_[i][j]` of the third. -/
inductive AccessSite where
  | diag_a_sums
  | diag_b_sums
  | cum_init
  | cum_add
  | a_sums_prev
  | a_term_first
  | a_term_second
  | a_sums_store
  | b_sums_prev
  | b_term
  | b_sums_store
  deriving DecidableEq, Repr

/-- One element access of `compute_partial_sums`: the expression performing it, the loop
counters `i` and `j` at that point (`j = 0` outside the inner loop), the container and the
index used (`row` is the index of a vector or the row of a table, `col` the column of a
table and `0` for a vector). -/
structure Access where
  site : AccessSite
  i : Nat
  j : Nat
  container : Container
  row : Int
  col : Int
  deriving DecidableEq, Repr

/-- The accesses of one pass of the first loop of `compute_partial_sums`. -/
def diagonal_accesses (i : Nat) : List Access :=
  [⟨AccessSite.diag_a_sums, i, 0, Container.a_sums_, i, i⟩,
   ⟨AccessSite.diag_b_sums, i, 0, Container.b_sums_, i, i⟩]

/-- The accesses of one pass of the inner loop of `compute_partial_sums`, at `(i, j)`. -/
def inner_accesses (i j : Nat) : List Access :=
  [⟨AccessSite.cum_add, i, j, Container.a_, (j : Int) - 2, 0⟩,
   ⟨AccessSite.a_sums_prev, i, j, Container.a_sums_, i, (j : Int) - 1⟩,
   ⟨AccessSite.a_term_first, i, j, Container.a_, (j : Int) - 1, 0⟩,
   ⟨AccessSite.a_term_second, i, j, Container.a_, (j : Int) - 1, 0⟩,
   ⟨AccessSite.a_sums_store, i, j, Container.a_sums_, i, j⟩,
   ⟨AccessSite.b_sums_prev, i, j, Container.b_sums_, i, (j : Int) - 1⟩,
   ⟨AccessSite.b_term, i, j, Container.b_, (j : Int) - 1, 0⟩,
   ⟨AccessSite.b_sums_store, i, j, Container.b_sums_, i, j⟩]

/-- The accesses of one pass of the outer loop of `compute_partial_sums`, at `i`: the read
of `a_cum = -a_[i-1]`, then the passes `j = i+1, ..., n_` of the inner loop. -/
def outer_accesses (n i : Nat) : List Access :=
  ⟨AccessSite.cum_init, i, 0, Container.a_, (i : Int) - 1, 0⟩ ::
    (List.range' (i + 1) (n - i)).flatMap (inner_accesses i)

/-- All element accesses of `compute_partial_sums` for `n_ = n`, in execution order: the
first loop over `i = 0, ..., n-1`, then the nested loops. -/
def compute_partial_sums_accesses (n : Nat) : List Access :=
  (List.range n).flatMap diagonal_accesses ++ (List.range n).flatMap (outer_accesses n)

/-- An access is within bounds: `a_` and `b_` have `n` elements, `a_sums_` and `b_sums_`
have `n` rows of `n + 1` columns. -/
def Access.in_bounds (n : Nat) (e : Access) : Bool :=
  match e.container with
  | Container.a_ => decide (0 ≤ e.row ∧ e.row < n)
  | Container.b_ => decide (0 ≤ e.row ∧ e.row < n)
  | Container.a_sums_ => decide (0 ≤ e.row ∧ e.row < n ∧ 0 ≤ e.col ∧ e.col < (n : Int) + 1)
  | Container.b_sums_ => decide (0 ≤ e.row ∧ e.row < n ∧ 0 ≤ e.col ∧ e.col < (n : Int) + 1)

end AccessTrace

section PartialSumsAux

variable {K : Type} [LinearOrderedField K]

open Objectives

/-- A table has `n` rows of `m` columns. -/
def tableDims (t : List (List K)) (n m : Nat) : Prop :=
  t.length = n ∧ ∀ i, i < n → (t.getD i []).length = m

/-- The content the specification gives to `A_sums[i][j]`. -/
def aSumsSpec (a : List K) (i j : Nat) : K :=
  ∑ k in Finset.Ico i j, (2 * rangeSum a i k + a.getD k 0) * a.getD k 0

/-- The state of the inner loop of `compute_partial_sums` in row `i` after `d` passes. -/
def innerAfter (oob : K) (a b : List K) (i : Nat) (s : PartialSumsState K) (d : Nat) :
    PartialSumsState K :=
  (List.range' (i + 1) d).foldl (RationalScoreContext.innerBody oob a b i)
    { s with a_cum := - readAt oob a ((i : Int) - 1) }

/-- The state of the outer loop of `compute_partial_sums` after `k` passes. -/
def outerAfter (oob : K) (a b : List K) (n : Nat) (s : PartialSumsState K) (k : Nat) :
    PartialSumsState K :=
  (List.range k).foldl (RationalScoreContext.outerBody oob a b n) s

end PartialSumsAux

/-! ## Range sums -/

section RangeSums

variable {K : Type} [LinearOrderedField K]

open Objectives

theorem foldl_add_eq_sum (l : List K) (x : K) :
    l.foldl (fun acc y => acc + y) x = x + l.sum := by
  induction l generalizing x with
  | nil => simp
  | cons y t ih => simp [ih, add_assoc]

theorem sum_take_succ_getD (l : List K) (d : Nat) :
    (l.take (d + 1)).sum = (l.take d).sum + l.getD d 0 := by
  induction l generalizing d with
  | nil => simp
  | cons y t ih =>
    cases d with
    | zero => simp
    | succ d => simp [ih d, add_assoc]

theorem accumulate_add (v : List K) (i d : Nat) :
    accumulate v i (i + d) = rangeSum v i (i + d) := by
  unfold accumulate rangeSum
  rw [foldl_add_eq_sum, zero_add, Nat.add_sub_cancel_left]
  induction d with
  | zero => simp
  | succ d ih =>
    rw [sum_take_succ_getD, ih, ← Nat.add_assoc, Finset.sum_Ico_succ_top (Nat.le_add_right i d)]
    congr 1
    simp [List.getD_eq_getElem?_getD, List.getElem?_drop]

theorem accumulate_eq_rangeSum (v : List K) (i j : Nat) (h : i ≤ j) :
    accumulate v i j = rangeSum v i j := by
  obtain ⟨d, rfl⟩ := Nat.exists_eq_add_of_le h
  exact accumulate_add v i d

end RangeSums

/-! ## The scoring context -/

section ScoreTheorems

variable {K : Type} [LinearOrderedField K]

open Objectives

/-- C1: a context built without the rational optimization is constructed without an
exception and, for every range `0 ≤ i < j ≤ n`, `compute_score(i, j)` returns the value of
the specification's table at `C = Σ a_k`, `B = Σ b_k` (sums over `i ≤ k < j`): Gaussian
`(C²/B − 1)/2` if `C > B` else `0` (multclust) and `C²/(2B)` (risk partitioning), Poisson
`C·ln(C/B) + B − C` if `C > B` else `0` (multclust) and `C·ln(C/B)` (risk partitioning),
RationalScore `C²/B` in both modes. -/
theorem compute_score_unoptimized_eq_scoreTable (ln : K → K) (cls : ContextClass) (oob : K)
    (a b : List K) (n : Nat) (dist : objective_fn) (rp : Bool)
    (ha : a.length = n) (hb : b.length = n) (i j : Nat) (hij : i < j) (hjn : j ≤ n) :
    ∃ ctx, construct cls oob a b n dist rp false = .ok ctx ∧
      compute_score ln ctx i j =
        .ok (scoreTable ln cls rp (rangeSum a i j) (rangeSum b i j)) := by
  refine ⟨_, rfl, ?_⟩
  have hA := accumulate_eq_rangeSum a i j hij.le
  have hB := accumulate_eq_rangeSum b i j hij.le
  cases cls <;> cases rp <;>
    simp only [compute_score, compute_score_multclust, compute_score_riskpart, scoreTable,
      PoissonContext.compute_score_multclust, PoissonContext.compute_score_riskpart,
      GaussianContext.compute_score_multclust, GaussianContext.compute_score_riskpart,
      RationalScoreContext.compute_score_multclust, RationalScoreContext.compute_score_riskpart,
      hA, hB, if_true, if_false, Bool.false_eq_true]
  · congr 1
    split_ifs
    · ring
    · rfl
  · congr 1
    ring

/-- Witness for C1: the Gaussian context on `a = [3, 1]`, `b = [1, 1]`, range `[0, 2)`. -/
theorem compute_score_unoptimized_eq_scoreTable_witness :
    ∃ ctx, construct ContextClass.GaussianContext (0 : ℚ) [3, 1] [1, 1] 2
        objective_fn.Gaussian false false = .ok ctx ∧
      compute_score (fun x => x) ctx 0 2 =
        .ok (scoreTable (fun x => x) ContextClass.GaussianContext false
          (rangeSum [3, 1] 0 2) (rangeSum [1, 1] 0 2)) :=
  compute_score_unoptimized_eq_scoreTable (fun x => x) ContextClass.GaussianContext 0
    [3, 1] [1, 1] 2 objective_fn.Gaussian false rfl rfl 0 2 (by decide) (by decide)

end ScoreTheorems

section ConstructionAndAmbient

variable {K : Type} [LinearOrderedField K]

open Objectives

/-- C3: constructing a scoring context throws `optimizationFlagException` if and only if
`use_rational_optimization` is set and the class is `GaussianContext` or `PoissonContext`;
in every other case (flag clear, or `RationalScoreContext` with either flag value) the
constructor returns a context. -/
theorem construct_throws_iff (cls : ContextClass) (oob : K) (a b : List K) (n : Nat)
    (dist : objective_fn) (rp opt : Bool) :
    (construct cls oob a b n dist rp opt = .error Exception.optimizationFlagException ↔
      (opt = true ∧ (cls = ContextClass.GaussianContext ∨ cls = ContextClass.PoissonContext)))
    ∧ ((∃ ctx, construct cls oob a b n dist rp opt = .ok ctx) ↔
      ¬ (opt = true ∧
        (cls = ContextClass.GaussianContext ∨ cls = ContextClass.PoissonContext))) := by
  cases cls <;> cases opt <;> simp [construct, compute_partial_sums]

/-- C4, refuted as stated: on the one-item context `a = [x]`, `b = [y]` the ambient score
differs from `compute_score(0, 1)` for Gaussian and for Poisson, in both modes.  Gaussian
multclust at `(1, 2)`: ambient `1/4`, score `0`; Gaussian risk partitioning at `(1, 2)`:
ambient `0`, score `1/4`; Poisson multclust at `(1, 2)`: ambient `ln(1/2) + 1`, score `0`;
Poisson risk partitioning at `(2, 1)`: ambient `2 ln 2 - 1`, score `2 ln 2`. -/
theorem ambient_score_ne_range_score :
    single_item_scores (fun x : ℚ => x) ContextClass.GaussianContext 0
        objective_fn.Gaussian false 1 2 = .ok (1 / 4, 0)
    ∧ single_item_scores (fun x : ℚ => x) ContextClass.GaussianContext 0
        objective_fn.Gaussian true 1 2 = .ok (0, 1 / 4)
    ∧ (∃ u v : ℝ, u ≠ v ∧ single_item_scores Real.log ContextClass.PoissonContext 0
        objective_fn.Poisson false 1 2 = .ok (u, v))
    ∧ (∃ u v : ℝ, u ≠ v ∧ single_item_scores Real.log ContextClass.PoissonContext 0
        objective_fn.Poisson true 2 1 = .ok (u, v)) := by
  refine ⟨?_, ?_, ?_, ?_⟩
  · simp [single_item_scores, construct, compute_score, compute_score_multclust,
      compute_ambient_score, compute_ambient_score_multclust, bind, Except.bind, pure,
      Except.pure, GaussianContext.compute_score_multclust, accumulate,
      GaussianContext.compute_ambient_score_multclust]
    norm_num
  · simp [single_item_scores, construct, compute_score, compute_score_riskpart,
      compute_ambient_score, compute_ambient_score_riskpart, bind, Except.bind, pure,
      Except.pure, GaussianContext.compute_score_riskpart, accumulate,
      GaussianContext.compute_ambient_score_riskpart]
    norm_num
  · refine ⟨1 * Real.log (1 / 2) + 2 - 1, 0, ?_, ?_⟩
    · have h : Real.log (1 / 2) = - Real.log 2 := by
        rw [one_div, Real.log_inv]
      have h2 := Real.log_two_lt_d9
      rw [h]
      intro hc
      norm_num at h2
      linarith
    · simp [single_item_scores, construct, compute_score, compute_score_multclust,
        compute_ambient_score, compute_ambient_score_multclust, bind, Except.bind, pure,
        Except.pure, PoissonContext.compute_score_multclust, accumulate,
        PoissonContext.compute_ambient_score_multclust]
  · refine ⟨2 * Real.log (2 / 1) + 1 - 2, 2 * Real.log (2 / 1), ?_, ?_⟩
    · intro hc
      linarith
    · simp [single_item_scores, construct, compute_score, compute_score_riskpart,
        compute_ambient_score, compute_ambient_score_riskpart, bind, Except.bind, pure,
        Except.pure, PoissonContext.compute_score_riskpart, accumulate,
        PoissonContext.compute_ambient_score_riskpart]

/-- C4, amended: for the RationalScore family, in each semantic mode and for every pair
`(x, y)` with `y > 0`, `compute_ambient_score(x, y)` equals the value `compute_score(0, 1)`
returns for the one-item context `a = [x]`, `b = [y]` built without optimization; both are
`x²/y`. -/
theorem rational_ambient_score_eq_range_score (ln : K → K) (oob : K) (dist : objective_fn)
    (rp : Bool) (x y : K) (hy : 0 < y) :
    single_item_scores ln ContextClass.RationalScoreContext oob dist rp x y =
      .ok (x ^ 2 / y, x ^ 2 / y) := by
  cases rp <;>
    simp [single_item_scores, construct, compute_score, compute_score_riskpart,
      compute_score_multclust, compute_ambient_score, compute_ambient_score_riskpart,
      compute_ambient_score_multclust, bind, Except.bind, pure, Except.pure,
      RationalScoreContext.compute_score_riskpart, RationalScoreContext.compute_score_multclust,
      RationalScoreContext.compute_ambient_score_riskpart,
      RationalScoreContext.compute_ambient_score_multclust, accumulate, sq]

/-- Witness for the amended C4 at `(x, y) = (3, 2)`, risk-partitioning mode. -/
theorem rational_ambient_score_eq_range_score_witness :
    single_item_scores (fun x : ℚ => x) ContextClass.RationalScoreContext 0
      objective_fn.RationalScore true 3 2 = .ok (3 ^ 2 / 2, 3 ^ 2 / 2) :=
  rational_ambient_score_eq_range_score (fun x => x) 0 objective_fn.RationalScore true 3 2
    (by norm_num)

end ConstructionAndAmbient

/-! ## The partial-sum tables -/

section Tables

variable {K : Type} [LinearOrderedField K]

open Objectives

theorem tableDims_replicate (n m : Nat) (x : K) :
    tableDims (List.replicate n (List.replicate m x)) n m := by
  refine ⟨by simp, fun i hi => ?_⟩
  simp [List.getD_eq_getElem?_getD, List.getElem?_replicate, hi]

theorem tableDims_tableSet {t : List (List K)} {n m : Nat} (h : tableDims t n m)
    (i j : Nat) (x : K) : tableDims (tableSet t i j x) n m := by
  obtain ⟨h1, h2⟩ := h
  refine ⟨by simp [tableSet, h1], fun i' hi' => ?_⟩
  have := h2 i' hi'
  by_cases e : i = i'
  · subst e
    simp [tableSet, List.getD_eq_getElem?_getD, List.getElem?_set, h1, hi'] at this ⊢
    exact this
  · simp [tableSet, List.getD_eq_getElem?_getD, List.getElem?_set, e] at this ⊢
    exact this

theorem tableGet_tableSet {t : List (List K)} {n m : Nat} (h : tableDims t n m)
    (i j : Nat) (hi : i < n) (hj : j < m) (x : K) (i' j' : Nat) :
    tableGet (tableSet t i j x) i' j' = if i' = i ∧ j' = j then x else tableGet t i' j' := by
  obtain ⟨h1, h2⟩ := h
  have hrow := h2 i hi
  by_cases e : i = i'
  · subst e
    by_cases e' : j = j'
    · subst e'
      simp [tableGet, tableSet, List.getD_eq_getElem?_getD, List.getElem?_set, h1, hi] at hrow ⊢
      simp [hrow, hj]
    · have e'' : ¬ j' = j := fun h => e' h.symm
      simp [tableGet, tableSet, List.getD_eq_getElem?_getD, List.getElem?_set, h1, hi, e', e'']
  · have e'' : ¬ i' = i := fun h => e h.symm
    simp [tableGet, tableSet, List.getD_eq_getElem?_getD, List.getElem?_set, e, e'']

theorem readAt_of_lt (oob : K) (v : List K) (k : Nat) (h : k < v.length) :
    readAt oob v (k : Int) = v.getD k 0 := by
  simp [readAt, List.getD_eq_getElem?_getD, List.getElem?_eq_getElem h]

theorem rangeSum_succ (v : List K) (i d : Nat) :
    rangeSum v i (i + d + 1) = rangeSum v i (i + d) + v.getD (i + d) 0 := by
  unfold rangeSum
  rw [Finset.sum_Ico_succ_top (Nat.le_add_right i d)]

theorem aSumsSpec_succ (a : List K) (i d : Nat) :
    aSumsSpec a i (i + d + 1) =
      aSumsSpec a i (i + d) + (2 * rangeSum a i (i + d) + a.getD (i + d) 0) * a.getD (i + d) 0 := by
  unfold aSumsSpec
  rw [Finset.sum_Ico_succ_top (Nat.le_add_right i d)]

theorem initDiagonal_spec (n : Nat) (st : PartialSumsState K)
    (hA : tableDims st.a_sums n (n + 1)) (hB : tableDims st.b_sums n (n + 1))
    (k : Nat) (hk : k ≤ n) :
    tableDims (RationalScoreContext.initDiagonal k st).a_sums n (n + 1) ∧
    tableDims (RationalScoreContext.initDiagonal k st).b_sums n (n + 1) ∧
    ∀ i, i < k → tableGet (RationalScoreContext.initDiagonal k st).a_sums i i = 0 ∧
      tableGet (RationalScoreContext.initDiagonal k st).b_sums i i = 0 := by
  induction k with
  | zero => exact ⟨hA, hB, fun i hi => absurd hi (Nat.not_lt_zero i)⟩
  | succ k ih =>
    obtain ⟨dA, dB, hz⟩ := ih (Nat.le_of_succ_le hk)
    have hk' : k < n := hk
    simp only [RationalScoreContext.initDiagonal, List.range_succ, List.foldl_append,
      List.foldl_cons, List.foldl_nil] at dA dB hz ⊢
    refine ⟨tableDims_tableSet dA _ _ _, tableDims_tableSet dB _ _ _, fun i hi => ?_⟩
    rw [tableGet_tableSet dA k k hk' (by omega), tableGet_tableSet dB k k hk' (by omega)]
    by_cases e : i = k
    · simp [e]
    · simp only [e, false_and, if_false]
      exact hz i (by omega)

theorem innerAfter_succ (oob : K) (a b : List K) (i : Nat) (s : PartialSumsState K) (d : Nat) :
    innerAfter oob a b i s (d + 1) =
      RationalScoreContext.innerBody oob a b i (innerAfter oob a b i s d) (i + 1 + d) := by
  simp [innerAfter, List.range'_concat, List.foldl_append]

theorem innerAfter_spec (oob : K) (a b : List K) (n : Nat) (ha : a.length = n)
    (hb : b.length = n) (i : Nat) (s : PartialSumsState K)
    (hA : tableDims s.a_sums n (n + 1)) (hB : tableDims s.b_sums n (n + 1))
    (h0 : tableGet s.a_sums i i = 0 ∧ tableGet s.b_sums i i = 0)
    (d : Nat) (hd : i + d ≤ n) :
    tableDims (innerAfter oob a b i s d).a_sums n (n + 1) ∧
    tableDims (innerAfter oob a b i s d).b_sums n (n + 1) ∧
    (innerAfter oob a b i s d).a_cum + readAt oob a (((i + d : Nat) : Int) - 1)
      = rangeSum a i (i + d) ∧
    (∀ j, i ≤ j → j ≤ i + d →
      tableGet (innerAfter oob a b i s d).a_sums i j = aSumsSpec a i j ∧
      tableGet (innerAfter oob a b i s d).b_sums i j = rangeSum b i j) ∧
    (∀ i' j', i' ≠ i →
      tableGet (innerAfter oob a b i s d).a_sums i' j' = tableGet s.a_sums i' j' ∧
      tableGet (innerAfter oob a b i s d).b_sums i' j' = tableGet s.b_sums i' j') := by
  induction d with
  | zero =>
    refine ⟨hA, hB, ?_, ?_, fun _ _ _ => ⟨rfl, rfl⟩⟩
    · simp [innerAfter, rangeSum]
    · intro j h1 h2
      have e : j = i := by omega
      subst e
      simpa [innerAfter, aSumsSpec, rangeSum] using h0
  | succ d ih =>
    obtain ⟨dA, dB, hc, hrow, hoth⟩ := ih (by omega)
    have hin : i < n := by omega
    have hlt : i + d < a.length := by omega
    have hltb : i + d < b.length := by omega
    have e1 : ((i + 1 + d : Nat) : Int) - 2 = ((i + d : Nat) : Int) - 1 := by push_cast; ring
    have e2 : ((i + 1 + d : Nat) : Int) - 1 = ((i + d : Nat) : Int) := by push_cast; ring
    have e3 : ((i + (d + 1) : Nat) : Int) - 1 = ((i + d : Nat) : Int) := by push_cast; ring
    have e4 : i + 1 + d - 1 = i + d := by omega
    rw [innerAfter_succ]
    simp only [RationalScoreContext.innerBody, e1, e2, e3, e4, hc]
    rw [readAt_of_lt oob a _ hlt, readAt_of_lt oob b _ hltb]
    obtain ⟨hra, hrb⟩ := hrow (i + d) (by omega) (by omega)
    refine ⟨tableDims_tableSet dA _ _ _, tableDims_tableSet dB _ _ _, ?_, ?_, ?_⟩
    · rw [← Nat.add_assoc, rangeSum_succ]
    · intro j h1 h2
      rw [tableGet_tableSet dA i _ hin (by omega), tableGet_tableSet dB i _ hin (by omega)]
      by_cases e : j = i + 1 + d
      · subst e
        simp only [true_and, if_true, hra, hrb]
        rw [show i + 1 + d = i + d + 1 by omega, aSumsSpec_succ, rangeSum_succ]
        exact ⟨rfl, rfl⟩
      · simp only [e, and_false, if_false]
        exact hrow j h1 (by omega)
    · intro i' j' hne
      rw [tableGet_tableSet dA i _ hin (by omega), tableGet_tableSet dB i _ hin (by omega)]
      simp only [hne, false_and, if_false]
      exact hoth i' j' hne

theorem outerBody_eq_innerAfter (oob : K) (a b : List K) (n : Nat) (s : PartialSumsState K)
    (i : Nat) :
    RationalScoreContext.outerBody oob a b n s i = innerAfter oob a b i s (n - i) := rfl

theorem outerAfter_spec (oob : K) (a b : List K) (n : Nat) (ha : a.length = n)
    (hb : b.length = n) (s : PartialSumsState K)
    (hA : tableDims s.a_sums n (n + 1)) (hB : tableDims s.b_sums n (n + 1))
    (h0 : ∀ i, i < n → tableGet s.a_sums i i = 0 ∧ tableGet s.b_sums i i = 0)
    (k : Nat) (hk : k ≤ n) :
    tableDims (outerAfter oob a b n s k).a_sums n (n + 1) ∧
    tableDims (outerAfter oob a b n s k).b_sums n (n + 1) ∧
    (∀ i j, i < k → i ≤ j → j ≤ n →
      tableGet (outerAfter oob a b n s k).a_sums i j = aSumsSpec a i j ∧
      tableGet (outerAfter oob a b n s k).b_sums i j = rangeSum b i j) ∧
    (∀ i, k ≤ i → i < n →
      tableGet (outerAfter oob a b n s k).a_sums i i = 0 ∧
      tableGet (outerAfter oob a b n s k).b_sums i i = 0) := by
  induction k with
  | zero =>
    exact ⟨hA, hB, fun i j hi => absurd hi (Nat.not_lt_zero i), fun i _ hi => h0 i hi⟩
  | succ k ih =>
    obtain ⟨dA, dB, hdone, hdiag⟩ := ih (Nat.le_of_succ_le hk)
    have hk' : k < n := hk
    have hstep : outerAfter oob a b n s (k + 1) =
        innerAfter oob a b k (outerAfter oob a b n s k) (n - k) := by
      simp [outerAfter, List.range_succ, List.foldl_append, outerBody_eq_innerAfter]
    obtain ⟨dA', dB', -, hrow, hoth⟩ :=
      innerAfter_spec oob a b n ha hb k (outerAfter oob a b n s k) dA dB (hdiag k le_rfl hk')
        (n - k) (by omega)
    rw [hstep]
    refine ⟨dA', dB', ?_, ?_⟩
    · intro i j hi hij hjn
      by_cases e : i = k
      · subst e
        exact hrow j hij (by omega)
      · rw [(hoth i j e).1, (hoth i j e).2]
        exact hdone i j (by omega) hij hjn
    · intro i hki hin
      have e : i ≠ k := by omega
      rw [(hoth i i e).1, (hoth i i e).2]
      exact hdiag i (by omega) hin

end Tables

section OptimizedPath

variable {K : Type} [LinearOrderedField K]

open Objectives

theorem compute_partial_sums_spec (oob : K) (ctx : ParametricContext K)
    (ha : ctx.a_.length = ctx.n_) (hb : ctx.b_.length = ctx.n_) :
    tableDims (RationalScoreContext.compute_partial_sums oob ctx).a_sums_
      ctx.n_ (ctx.n_ + 1) ∧
    tableDims (RationalScoreContext.compute_partial_sums oob ctx).b_sums_
      ctx.n_ (ctx.n_ + 1) ∧
    ∀ i j, i < ctx.n_ → i ≤ j → j ≤ ctx.n_ →
      tableGet (RationalScoreContext.compute_partial_sums oob ctx).a_sums_ i j
        = aSumsSpec ctx.a_ i j ∧
      tableGet (RationalScoreContext.compute_partial_sums oob ctx).b_sums_ i j
        = rangeSum ctx.b_ i j := by
  obtain ⟨dA, dB, hz⟩ := initDiagonal_spec ctx.n_
    ({ a_cum := 0
       a_sums := List.replicate ctx.n_ (List.replicate (ctx.n_ + 1) FLT_MIN)
       b_sums := List.replicate ctx.n_ (List.replicate (ctx.n_ + 1) FLT_MIN) } :
      PartialSumsState K)
    (tableDims_replicate _ _ _) (tableDims_replicate _ _ _) ctx.n_ le_rfl
  obtain ⟨dA', dB', hdone, -⟩ :=
    outerAfter_spec oob ctx.a_ ctx.b_ ctx.n_ ha hb _ dA dB hz ctx.n_ le_rfl
  exact ⟨dA', dB', hdone⟩

theorem aSumsSpec_eq_sq (a : List K) (i d : Nat) :
    aSumsSpec a i (i + d) = (rangeSum a i (i + d)) ^ 2 := by
  induction d with
  | zero => simp [aSumsSpec, rangeSum]
  | succ d ih =>
    rw [← Nat.add_assoc, aSumsSpec_succ, rangeSum_succ, ih]
    ring

/-- C10: after `RationalScoreContext::compute_partial_sums`, whatever value `oob` the read
`a_[-1]` returns, both tables have `n` rows of `n+1` columns and, for `0 ≤ i < n` and
`i ≤ j ≤ n`, `a_sums_[i][j] = Σ_{k ∈ [i,j)} (2·(Σ_{l ∈ [i,k)} a_l) + a_k)·a_k` and
`b_sums_[i][j] = Σ_{k ∈ [i,j)} b_k`; in particular `a_sums_[i][i] = b_sums_[i][i] = 0`. -/
theorem compute_partial_sums_tables (oob : K) (ctx : ParametricContext K)
    (ha : ctx.a_.length = ctx.n_) (hb : ctx.b_.length = ctx.n_) :
    ((RationalScoreContext.compute_partial_sums oob ctx).a_sums_.length = ctx.n_ ∧
      ∀ i, i < ctx.n_ →
        ((RationalScoreContext.compute_partial_sums oob ctx).a_sums_.getD i []).length
          = ctx.n_ + 1) ∧
    ((RationalScoreContext.compute_partial_sums oob ctx).b_sums_.length = ctx.n_ ∧
      ∀ i, i < ctx.n_ →
        ((RationalScoreContext.compute_partial_sums oob ctx).b_sums_.getD i []).length
          = ctx.n_ + 1) ∧
    (∀ i j, i < ctx.n_ → i ≤ j → j ≤ ctx.n_ →
      tableGet (RationalScoreContext.compute_partial_sums oob ctx).a_sums_ i j
        = ∑ k in Finset.Ico i j,
            (2 * (∑ l in Finset.Ico i k, ctx.a_.getD l 0) + ctx.a_.getD k 0)
              * ctx.a_.getD k 0 ∧
      tableGet (RationalScoreContext.compute_partial_sums oob ctx).b_sums_ i j
        = ∑ k in Finset.Ico i j, ctx.b_.getD k 0) ∧
    (∀ i, i < ctx.n_ →
      tableGet (RationalScoreContext.compute_partial_sums oob ctx).a_sums_ i i = 0 ∧
      tableGet (RationalScoreContext.compute_partial_sums oob ctx).b_sums_ i i = 0) := by
  obtain ⟨dA, dB, h⟩ := compute_partial_sums_spec oob ctx ha hb
  refine ⟨dA, dB, h, fun i hi => ?_⟩
  have := h i i hi le_rfl (Nat.le_of_lt hi)
  simpa [aSumsSpec, rangeSum] using this

/-- Witness for C10: the context with `a = [1, 2]`, `b = [3, 4]`, `n = 2` and the value `7`
for the read `a_[-1]`. -/
theorem compute_partial_sums_tables_witness :
    tableGet (RationalScoreContext.compute_partial_sums (7 : ℚ)
      { cls := ContextClass.RationalScoreContext, a_ := [1, 2], b_ := [3, 4], n_ := 2,
        a_sums_ := [], b_sums_ := [], parametric_dist_ := objective_fn.RationalScore,
        risk_partitioning_objective_ := true, use_rational_optimization_ := true }).a_sums_
      0 0 = 0 :=
  ((compute_partial_sums_tables (7 : ℚ)
      { cls := ContextClass.RationalScoreContext, a_ := [1, 2], b_ := [3, 4], n_ := 2,
        a_sums_ := [], b_sums_ := [], parametric_dist_ := objective_fn.RationalScore,
        risk_partitioning_objective_ := true, use_rational_optimization_ := true }
      rfl rfl).2.2.2 0 (by decide)).1

/-- C2: for every RationalScore input `(a, b, n)` and every range `0 ≤ i < j ≤ n`, the
context built with `use_rational_optimization = true` (table look-up
`a_sums_[i][j] / b_sums_[i][j]`) and the context built with the flag clear return the same
score, `(Σ a)² / Σ b`, in both semantic modes and whatever the read `a_[-1]` returns; hence
any solver whose result depends only on the values `compute_score(i, j)`, `0 ≤ i < j ≤ n`,
gives the same result under both flag values. -/
theorem optimized_score_eq_unoptimized (ln : K → K) (oob : K) (a b : List K) (n : Nat)
    (dist : objective_fn) (rp : Bool) (ha : a.length = n) (hb : b.length = n) :
    ∃ copt cun,
      construct ContextClass.RationalScoreContext oob a b n dist rp true = .ok copt ∧
      construct ContextClass.RationalScoreContext oob a b n dist rp false = .ok cun ∧
      (∀ i j, i < j → j ≤ n →
        compute_score ln copt i j = .ok ((rangeSum a i j) ^ 2 / rangeSum b i j) ∧
        compute_score ln cun i j = .ok ((rangeSum a i j) ^ 2 / rangeSum b i j)) ∧
      (∀ (β : Type) (solver : (Nat → Nat → Except Exception K) → β),
        (∀ f g : Nat → Nat → Except Exception K,
          (∀ i j, i < j → j ≤ n → f i j = g i j) → solver f = solver g) →
        solver (compute_score ln copt) = solver (compute_score ln cun)) := by
  have key : ∀ i j, i < j → j ≤ n →
      compute_score ln (RationalScoreContext.compute_partial_sums oob
          { cls := ContextClass.RationalScoreContext, a_ := a, b_ := b, n_ := n,
            a_sums_ := [], b_sums_ := [], parametric_dist_ := dist,
            risk_partitioning_objective_ := rp, use_rational_optimization_ := true }) i j
        = .ok ((rangeSum a i j) ^ 2 / rangeSum b i j) ∧
      compute_score ln
          { cls := ContextClass.RationalScoreContext, a_ := a, b_ := b, n_ := n,
            a_sums_ := [], b_sums_ := [], parametric_dist_ := dist,
            risk_partitioning_objective_ := rp, use_rational_optimization_ := false } i j
        = .ok ((rangeSum a i j) ^ 2 / rangeSum b i j) := by
    intro i j hij hjn
    obtain ⟨-, -, h⟩ := compute_partial_sums_spec oob
      ({ cls := ContextClass.RationalScoreContext, a_ := a, b_ := b, n_ := n,
         a_sums_ := [], b_sums_ := [], parametric_dist_ := dist,
         risk_partitioning_objective_ := rp, use_rational_optimization_ := true } :
        ParametricContext K) ha hb
    obtain ⟨hA, hB⟩ := h i j (by simp only; omega) hij.le hjn
    obtain ⟨d, rfl⟩ := Nat.exists_eq_add_of_le hij.le
    rw [aSumsSpec_eq_sq] at hA
    simp only at hA hB
    have eA := accumulate_eq_rangeSum a i (i + d) hij.le
    have eB := accumulate_eq_rangeSum b i (i + d) hij.le
    constructor
    · cases rp <;>
        simp [compute_score, compute_score_riskpart_optimized,
          compute_score_multclust_optimized,
          RationalScoreContext.compute_score_riskpart_optimized,
          RationalScoreContext.compute_score_multclust_optimized,
          RationalScoreContext.compute_partial_sums] at hA hB ⊢ <;>
        rw [hA, hB]
    · cases rp <;>
        simp [compute_score, compute_score_riskpart, compute_score_multclust,
          RationalScoreContext.compute_score_riskpart,
          RationalScoreContext.compute_score_multclust, eA, eB]
  refine ⟨_, _, rfl, rfl, key, fun β solver hs => hs _ _ fun i j hij hjn => ?_⟩
  rw [(key i j hij hjn).1, (key i j hij hjn).2]

/-- Witness for C2: `a = [1, 2]`, `b = [3, 4]`, `n = 2`, risk-partitioning mode. -/
theorem optimized_score_eq_unoptimized_witness :
    ∃ copt cun,
      construct ContextClass.RationalScoreContext (7 : ℚ) [1, 2] [3, 4] 2
        objective_fn.RationalScore true true = .ok copt ∧
      construct ContextClass.RationalScoreContext (7 : ℚ) [1, 2] [3, 4] 2
        objective_fn.RationalScore true false = .ok cun ∧
      (∀ i j, i < j → j ≤ 2 →
        compute_score (fun x => x) copt i j
          = .ok ((rangeSum [1, 2] i j) ^ 2 / rangeSum [3, 4] i j) ∧
        compute_score (fun x => x) cun i j
          = .ok ((rangeSum [1, 2] i j) ^ 2 / rangeSum [3, 4] i j)) ∧
      (∀ (β : Type) (solver : (Nat → Nat → Except Exception ℚ) → β),
        (∀ f g : Nat → Nat → Except Exception ℚ,
          (∀ i j, i < j → j ≤ 2 → f i j = g i j) → solver f = solver g) →
        solver (compute_score (fun x => x) copt) = solver (compute_score (fun x => x) cun)) :=
  optimized_score_eq_unoptimized (fun x => x) 7 [1, 2] [3, 4] 2
    objective_fn.RationalScore true rfl rfl

end OptimizedPath

/-! ## The priority sort -/

section PrioritySortTheorems

variable {K : Type} [LinearOrderedField K]

theorem priority_comp_eq_false_iff (a b : List K) (x y : Nat) :
    priority_comp a b y x = false ↔
      a.getD x 0 / b.getD x 0 ≤ a.getD y 0 / b.getD y 0 := by
  simp [priority_comp]

theorem sort_indices_perm (a b : List K) : (sort_indices a b).Perm (List.range a.length) :=
  List.perm_insertionSort _ _

theorem sort_indices_length (a b : List K) : (sort_indices a b).length = a.length := by
  rw [(sort_indices_perm a b).length_eq, List.length_range]

theorem sort_indices_sorted (a b : List K) :
    (sort_indices a b).Pairwise
      (fun x y => a.getD x 0 / b.getD x 0 ≤ a.getD y 0 / b.getD y 0) := by
  haveI : IsTotal Nat (fun x y => priority_comp a b y x = false) :=
    ⟨fun x y => by
      simp only [priority_comp_eq_false_iff]
      exact le_total _ _⟩
  haveI : IsTrans Nat (fun x y => priority_comp a b y x = false) :=
    ⟨fun x y z => by
      simp only [priority_comp_eq_false_iff]
      exact le_trans⟩
  have h := List.sorted_insertionSort (fun x y => priority_comp a b y x = false)
    (List.range a.length)
  exact List.Pairwise.imp (fun {x y} hxy => (priority_comp_eq_false_iff a b x y).mp hxy) h

theorem copy_into_same_length (src dst : List K) (h : src.length = dst.length) :
    copy_into src dst = src := by
  simp [copy_into, h]

theorem sort_by_priority_fst (a b : List K) :
    (sort_by_priority a b).1 = (sort_indices a b).map (fun i => a.getD i 0) := by
  simp only [sort_by_priority]
  exact copy_into_same_length _ _ (by simp [sort_indices_length])

theorem sort_by_priority_snd (a b : List K) (hlen : a.length = b.length) :
    (sort_by_priority a b).2 = (sort_indices a b).map (fun i => b.getD i 0) := by
  simp only [sort_by_priority]
  exact copy_into_same_length _ _ (by simp [sort_indices_length, hlen])

theorem getD_map_getD (ind : List Nat) (v : List K) (k : Nat) (hk : k < ind.length) :
    (ind.map (fun i => v.getD i 0)).getD k 0 = v.getD (ind.getD k 0) 0 := by
  simp [List.getD_eq_getElem?_getD, List.getElem?_eq_getElem hk]

theorem pair_sublist_range (p q n : Nat) (hpq : p < q) (hq : q < n) :
    List.Sublist [p, q] (List.range n) := by
  induction n with
  | zero => omega
  | succ n ih =>
    rw [List.range_succ]
    by_cases e : q = n
    · subst e
      have h1 : List.Sublist [p] (List.range q) := List.singleton_sublist.mpr (List.mem_range.mpr hpq)
      exact h1.append (List.Sublist.refl [q])
    · exact (ih (by omega)).trans (List.sublist_append_left _ _)

theorem exists_positions_of_pair_sublist {x y : Nat} {l : List Nat}
    (h : List.Sublist [x, y] l) :
    ∃ i j, i < j ∧ j < l.length ∧ l.getD i 0 = x ∧ l.getD j 0 = y := by
  induction l with
  | nil => simp at h
  | cons c t ih =>
    cases h with
    | cons _ h' =>
      obtain ⟨i, j, hij, hj, hx, hy⟩ := ih h'
      exact ⟨i + 1, j + 1, by omega, by simp; omega, by simpa using hx, by simpa using hy⟩
    | cons₂ _ h' =>
      have hy : y ∈ t := List.singleton_sublist.mp h'
      obtain ⟨j, hj, hjy⟩ := List.getElem_of_mem hy
      refine ⟨0, j + 1, by omega, by simp; omega, by simp, ?_⟩
      simp [List.getD_eq_getElem?_getD, List.getElem?_eq_getElem hj, hjy]

theorem list_eq_map_range (v : List K) :
    v = (List.range v.length).map (fun i => v.getD i 0) := by
  apply List.ext_getElem
  · simp
  · intro k h1 h2
    simp [List.getD_eq_getElem?_getD, List.getElem?_eq_getElem h1]

theorem zip_map_getD (ind : List Nat) (a b : List K) :
    (ind.map (fun i => a.getD i 0)).zip (ind.map (fun i => b.getD i 0))
      = ind.map (fun i => (a.getD i 0, b.getD i 0)) := by
  induction ind with
  | nil => rfl
  | cons c t ih => simp only [List.map_cons, List.zip_cons_cons, ih]

/-- C6: for sequences `a`, `b` of equal length `n`, `sort_by_priority` reorders both under
one permutation `pi` of `0, ..., n-1`: `a_out[k] = a_in[pi(k)]` and `b_out[k] = b_in[pi(k)]`
for every `k < n`; the pairs `(a_k, b_k)` after the call are a permutation of the pairs
before it, and both lengths are unchanged. -/
theorem sort_by_priority_perm (a b : List K) (hlen : a.length = b.length) :
    ∃ pi : List Nat, pi.Perm (List.range a.length) ∧
      (∀ k, k < a.length →
        (sort_by_priority a b).1.getD k 0 = a.getD (pi.getD k 0) 0 ∧
        (sort_by_priority a b).2.getD k 0 = b.getD (pi.getD k 0) 0) ∧
      ((sort_by_priority a b).1.zip (sort_by_priority a b).2).Perm (a.zip b) ∧
      (sort_by_priority a b).1.length = a.length ∧
      (sort_by_priority a b).2.length = b.length := by
  have hl := sort_indices_length a b
  refine ⟨sort_indices a b, sort_indices_perm a b, ?_, ?_, ?_, ?_⟩
  · intro k hk
    rw [sort_by_priority_fst, sort_by_priority_snd a b hlen,
      getD_map_getD _ _ k (by omega), getD_map_getD _ _ k (by omega)]
    exact ⟨rfl, rfl⟩
  · rw [sort_by_priority_fst, sort_by_priority_snd a b hlen, zip_map_getD]
    have hz : a.zip b = (List.range a.length).map (fun i => (a.getD i 0, b.getD i 0)) := by
      rw [← zip_map_getD]
      conv_lhs => rw [list_eq_map_range a, list_eq_map_range b, ← hlen]
    rw [hz]
    exact (sort_indices_perm a b).map _
  · rw [sort_by_priority_fst, List.length_map, hl]
  · rw [sort_by_priority_snd a b hlen, List.length_map, hl, hlen]

/-- Witness for C6: `a = [3, 1, 2]`, `b = [1, 1, 1]`. -/
theorem sort_by_priority_perm_witness :
    ∃ pi : List Nat, pi.Perm (List.range ([3, 1, 2] : List ℚ).length) ∧
      (∀ k, k < ([3, 1, 2] : List ℚ).length →
        (sort_by_priority ([3, 1, 2] : List ℚ) [1, 1, 1]).1.getD k 0
          = ([3, 1, 2] : List ℚ).getD (pi.getD k 0) 0 ∧
        (sort_by_priority ([3, 1, 2] : List ℚ) [1, 1, 1]).2.getD k 0
          = ([1, 1, 1] : List ℚ).getD (pi.getD k 0) 0) ∧
      ((sort_by_priority ([3, 1, 2] : List ℚ) [1, 1, 1]).1.zip
        (sort_by_priority ([3, 1, 2] : List ℚ) [1, 1, 1]).2).Perm
          (([3, 1, 2] : List ℚ).zip [1, 1, 1]) ∧
      (sort_by_priority ([3, 1, 2] : List ℚ) [1, 1, 1]).1.length
        = ([3, 1, 2] : List ℚ).length ∧
      (sort_by_priority ([3, 1, 2] : List ℚ) [1, 1, 1]).2.length
        = ([1, 1, 1] : List ℚ).length :=
  sort_by_priority_perm [3, 1, 2] [1, 1, 1] rfl

/-- C7: `sort_by_priority` is stable.  For sequences `a`, `b` of equal length with every
`b_i > 0` and input positions `p < q` with `a[p]/b[p] = a[q]/b[q]`, the item of position `p`
is placed before the item of position `q`: there are output positions `p' < q'` that the
sorted index vector maps to `p` and `q`, and the output holds `(a[p], b[p])` at `p'` and
`(a[q], b[q])` at `q'`. -/
theorem sort_by_priority_stable (a b : List K) (hlen : a.length = b.length)
    (hb : ∀ y ∈ b, 0 < y) (p q : Nat) (hpq : p < q) (hq : q < a.length)
    (hratio : a.getD p 0 / b.getD p 0 = a.getD q 0 / b.getD q 0) :
    ∃ p' q', p' < q' ∧ q' < a.length ∧
      (sort_indices a b).getD p' 0 = p ∧ (sort_indices a b).getD q' 0 = q ∧
      (sort_by_priority a b).1.getD p' 0 = a.getD p 0 ∧
      (sort_by_priority a b).2.getD p' 0 = b.getD p 0 ∧
      (sort_by_priority a b).1.getD q' 0 = a.getD q 0 ∧
      (sort_by_priority a b).2.getD q' 0 = b.getD q 0 := by
  have hl := sort_indices_length a b
  have hsub : List.Sublist [p, q] (sort_indices a b) :=
    List.pair_sublist_insertionSort
      ((priority_comp_eq_false_iff a b p q).mpr (le_of_eq hratio))
      (pair_sublist_range p q a.length hpq hq)
  obtain ⟨p', q', h1, h2, h3, h4⟩ := exists_positions_of_pair_sublist hsub
  refine ⟨p', q', h1, by omega, h3, h4, ?_, ?_, ?_, ?_⟩
  · rw [sort_by_priority_fst, getD_map_getD _ _ p' (by omega), h3]
  · rw [sort_by_priority_snd a b hlen, getD_map_getD _ _ p' (by omega), h3]
  · rw [sort_by_priority_fst, getD_map_getD _ _ q' (by omega), h4]
  · rw [sort_by_priority_snd a b hlen, getD_map_getD _ _ q' (by omega), h4]

/-- Witness for C7: `a = [2, 1, 4]`, `b = [1, 1, 2]`, where positions `0` and `2` tie at
ratio `2`. -/
theorem sort_by_priority_stable_witness :
    ∃ p' q', p' < q' ∧ q' < ([2, 1, 4] : List ℚ).length ∧
      (sort_indices ([2, 1, 4] : List ℚ) [1, 1, 2]).getD p' 0 = 0 ∧
      (sort_indices ([2, 1, 4] : List ℚ) [1, 1, 2]).getD q' 0 = 2 ∧
      (sort_by_priority ([2, 1, 4] : List ℚ) [1, 1, 2]).1.getD p' 0
        = ([2, 1, 4] : List ℚ).getD 0 0 ∧
      (sort_by_priority ([2, 1, 4] : List ℚ) [1, 1, 2]).2.getD p' 0
        = ([1, 1, 2] : List ℚ).getD 0 0 ∧
      (sort_by_priority ([2, 1, 4] : List ℚ) [1, 1, 2]).1.getD q' 0
        = ([2, 1, 4] : List ℚ).getD 2 0 ∧
      (sort_by_priority ([2, 1, 4] : List ℚ) [1, 1, 2]).2.getD q' 0
        = ([1, 1, 2] : List ℚ).getD 2 0 :=
  sort_by_priority_stable [2, 1, 4] [1, 1, 2] rfl (by simp) 0 2 (by decide) (by decide)
    (by norm_num)

end PrioritySortTheorems

/-! ## The sweeps over the number of parts -/

section SweepTheorems

variable {K : Type} [LinearOrderedField K]

theorem sweep__PG_loop_eq (PG : Int → Int → List K → List K → PartitionGraph K)
    (n : Int) (a b : List K) (m : Nat) :
    ∀ (i : Int) (r : List (List (List Int) × K)), (i - 1).toNat = m →
      sweep__PG.loop PG n a b i r =
        r ++ (List.range m).map
          (fun k : Nat =>
            ((PG n (i - (k : Int)) a b).optimal_subsets,
              (PG n (i - (k : Int)) a b).optimal_weight)) := by
  induction m with
  | zero =>
    intro i r h
    rw [sweep__PG.loop, if_neg (by omega)]
    simp
  | succ m ih =>
    intro i r h
    rw [sweep__PG.loop, if_pos (by omega)]
    simp only
    rw [ih (i - 1) _ (by omega), List.range_succ_eq_map, List.map_cons, List.map_map,
      List.append_assoc]
    simp only [List.singleton_append, Nat.cast_zero, sub_zero]
    congr 2
    apply List.map_congr_left
    intro k _
    simp only [Function.comp, Nat.cast_succ]
    rw [show i - 1 - (k : Int) = i - ((k : Int) + 1) by ring]

/-- C9: `sweep__PG(n, T, a, b)` returns a list of length `max(T-1, 0)` whose `k`-th
element, `k = 0, ..., T-2`, is the pair (optimal subsets, optimal weight) of
`PartitionGraph(n, T-k, a, b)`: one entry for each `T' = T, T-1, ..., 2` in that order, and
the empty list when `T < 2`. -/
theorem sweep__PG_entries (PG : Int → Int → List K → List K → PartitionGraph K)
    (n T : Int) (a b : List K) :
    ((sweep__PG PG n T a b).length : Int) = max (T - 1) 0 ∧
    (∀ k : Nat, (k : Int) + 2 ≤ T →
      (sweep__PG PG n T a b)[k]? =
        some ((PG n (T - k) a b).optimal_subsets, (PG n (T - k) a b).optimal_weight)) ∧
    (T < 2 → sweep__PG PG n T a b = []) := by
  have h := sweep__PG_loop_eq PG n a b (T - 1).toNat T [] rfl
  rw [List.nil_append] at h
  refine ⟨?_, ?_, ?_⟩
  · rw [sweep__PG, h, List.length_map, List.length_range, Int.toNat_eq_max]
  · intro k hk
    rw [sweep__PG, h, List.getElem?_map, List.getElem?_range (by omega)]
    rfl
  · intro hT
    rw [sweep__PG, h, show (T - 1).toNat = 0 by omega]
    rfl

theorem solve_three_parts :
    PartitionGraph.solve 3 3 ([1, 2, 4] : List ℚ) [1, 1, 1] = ⟨[[0], [1], [2]], -21⟩ := by
  have e3 : (3 : ℤ).toNat = 3 := rfl
  norm_num [PartitionGraph.solve, PartitionGraph.layers, PartitionGraph.relax_node,
    PartitionGraph.edge_weight, PartitionGraph.decode, Objectives.accumulate, List.range,
    List.range.loop, List.range', e3]

theorem solve_two_parts :
    PartitionGraph.solve 3 2 ([1, 2, 4] : List ℚ) [1, 1, 1] = ⟨[[0, 1], [2]], -41 / 2⟩ := by
  have e3 : (3 : ℤ).toNat = 3 := rfl
  have e2 : (2 : ℤ).toNat = 2 := rfl
  norm_num [PartitionGraph.solve, PartitionGraph.layers, PartitionGraph.relax_node,
    PartitionGraph.edge_weight, PartitionGraph.decode, Objectives.accumulate, List.range,
    List.range.loop, List.range', e3, e2]

/-- C8, the defect: on `n = 3`, `T = 3`, `a = [1, 2, 4]`, `b = [1, 1, 1]` the partition
graph has the results `([[0], [1], [2]], -21)` for `T' = 3` and `([[0, 1], [2]], -41/2)` for
`T' = 2`, and `sweep_best__PG` returns `([[0], [1], [2]], -41/2)`: the subsets of `T' = 3`
with the weight of `T' = 2`.  The pair is the result of no `T'`, and its weight is not the
minimum `-21`. -/
theorem sweep_best__PG_returns_last_weight :
    sweep_best__PG PartitionGraph.solve (0 : ℚ) 3 3 [1, 2, 4] [1, 1, 1]
      = ([[0], [1], [2]], -41 / 2) ∧
    (PartitionGraph.solve 3 3 ([1, 2, 4] : List ℚ) [1, 1, 1]).optimal_subsets
      = [[0], [1], [2]] ∧
    (PartitionGraph.solve 3 3 ([1, 2, 4] : List ℚ) [1, 1, 1]).optimal_weight = -21 ∧
    (PartitionGraph.solve 3 2 ([1, 2, 4] : List ℚ) [1, 1, 1]).optimal_subsets
      = [[0, 1], [2]] ∧
    (PartitionGraph.solve 3 2 ([1, 2, 4] : List ℚ) [1, 1, 1]).optimal_weight = -41 / 2 := by
  refine ⟨?_, by rw [solve_three_parts], by rw [solve_three_parts],
    by rw [solve_two_parts], by rw [solve_two_parts]⟩
  rw [sweep_best__PG, sweep_best__PG.loop, if_pos (by decide)]
  simp only [solve_three_parts]
  rw [show (3 : ℤ) - 1 = 2 from rfl, sweep_best__PG.loop, if_pos (by decide)]
  simp only [solve_two_parts]
  rw [show (2 : ℤ) - 1 = 1 from rfl, sweep_best__PG.loop, if_neg (by decide)]
  norm_num [Objectives.FLT_MAX]

end SweepTheorems

/-! ## Signs and superadditivity of the scores -/

section ScoreInequalities

variable {K : Type} [LinearOrderedField K]

open Objectives

theorem rangeSum_split (v : List K) (i m j : Nat) (him : i ≤ m) (hmj : m ≤ j) :
    rangeSum v i j = rangeSum v i m + rangeSum v m j := by
  unfold rangeSum
  rw [Finset.sum_Ico_consecutive _ him hmj]

theorem rangeSum_pos (v : List K) (hpos : ∀ y ∈ v, 0 < y) (i j : Nat) (hij : i < j)
    (hj : j ≤ v.length) : 0 < rangeSum v i j := by
  unfold rangeSum
  apply Finset.sum_pos
  · intro k hk
    have hk' : k < v.length := by
      have := (Finset.mem_Ico.mp hk).2
      omega
    rw [List.getD_eq_getElem?_getD, List.getElem?_eq_getElem hk']
    exact hpos _ (List.getElem_mem hk')
  · exact ⟨i, Finset.mem_Ico.mpr ⟨le_rfl, hij⟩⟩

theorem sq_div_add_le (A1 A2 B1 B2 : K) (h1 : 0 < B1) (h2 : 0 < B2) :
    (A1 + A2) ^ 2 / (B1 + B2) ≤ A1 ^ 2 / B1 + A2 ^ 2 / B2 := by
  rw [div_add_div _ _ h1.ne' h2.ne', div_le_div_iff (by positivity) (by positivity)]
  have h := mul_nonneg (sq_nonneg (A1 * B2 - A2 * B1)) (le_refl (0 : K))
  nlinarith [sq_nonneg (A1 * B2 - A2 * B1), mul_pos h1 h2]

theorem rational_score_value (ln : K → K) (oob : K) (a b : List K) (n : Nat)
    (dist : objective_fn) (rp opt : Bool) (ha : a.length = n) (hb : b.length = n) :
    ∃ ctx, construct ContextClass.RationalScoreContext oob a b n dist rp opt = .ok ctx ∧
      ∀ i j, i < j → j ≤ n →
        compute_score ln ctx i j = .ok ((rangeSum a i j) ^ 2 / rangeSum b i j) := by
  cases opt
  · refine ⟨_, rfl, fun i j hij _ => ?_⟩
    have eA := accumulate_eq_rangeSum a i j hij.le
    have eB := accumulate_eq_rangeSum b i j hij.le
    cases rp <;>
      simp [compute_score, compute_score_riskpart, compute_score_multclust,
        RationalScoreContext.compute_score_riskpart,
        RationalScoreContext.compute_score_multclust, eA, eB]
  · refine ⟨_, rfl, fun i j hij hjn => ?_⟩
    obtain ⟨-, -, h⟩ := compute_partial_sums_spec oob
      ({ cls := ContextClass.RationalScoreContext, a_ := a, b_ := b, n_ := n,
         a_sums_ := [], b_sums_ := [], parametric_dist_ := dist,
         risk_partitioning_objective_ := rp, use_rational_optimization_ := true } :
        ParametricContext K) ha hb
    obtain ⟨hA, hB⟩ := h i j (by simp only; omega) hij.le hjn
    obtain ⟨d, rfl⟩ := Nat.exists_eq_add_of_le hij.le
    rw [aSumsSpec_eq_sq] at hA
    simp only at hA hB
    cases rp <;>
      simp [compute_score, compute_score_riskpart_optimized,
        compute_score_multclust_optimized,
        RationalScoreContext.compute_score_riskpart_optimized,
        RationalScoreContext.compute_score_multclust_optimized,
        RationalScoreContext.compute_partial_sums] at hA hB ⊢ <;>
      rw [hA, hB]

/-- C19: splitting a range never lowers the RationalScore.  For every RationalScore context
(either mode, either value of the optimization flag) with every `b_k > 0` and all
`0 ≤ i < m < j ≤ n`, `compute_score(i, j) ≤ compute_score(i, m) + compute_score(m, j)`. -/
theorem rational_score_split_le (ln : K → K) (oob : K) (a b : List K) (n : Nat)
    (dist : objective_fn) (rp opt : Bool) (ha : a.length = n) (hb : b.length = n)
    (hpos : ∀ y ∈ b, 0 < y) (i m j : Nat) (him : i < m) (hmj : m < j) (hjn : j ≤ n) :
    ∃ ctx sij sim smj,
      construct ContextClass.RationalScoreContext oob a b n dist rp opt = .ok ctx ∧
      compute_score ln ctx i j = .ok sij ∧ compute_score ln ctx i m = .ok sim ∧
      compute_score ln ctx m j = .ok smj ∧ sij ≤ sim + smj := by
  obtain ⟨ctx, hc, hs⟩ := rational_score_value ln oob a b n dist rp opt ha hb
  refine ⟨ctx, _, _, _, hc, hs i j (by omega) hjn, hs i m him (by omega),
    hs m j hmj hjn, ?_⟩
  rw [rangeSum_split a i m j him.le hmj.le, rangeSum_split b i m j him.le hmj.le]
  exact sq_div_add_le _ _ _ _ (rangeSum_pos b hpos i m him (by omega))
    (rangeSum_pos b hpos m j hmj (by omega))

/-- Witness for C19: `a = [1, 2]`, `b = [1, 1]`, `i = 0`, `m = 1`, `j = 2`, optimized
context in risk-partitioning mode. -/
theorem rational_score_split_le_witness :
    ∃ ctx sij sim smj,
      construct ContextClass.RationalScoreContext (7 : ℚ) [1, 2] [1, 1] 2
        objective_fn.RationalScore true true = .ok ctx ∧
      compute_score (fun x => x) ctx 0 2 = .ok sij ∧
      compute_score (fun x => x) ctx 0 1 = .ok sim ∧
      compute_score (fun x => x) ctx 1 2 = .ok smj ∧ sij ≤ sim + smj :=
  rational_score_split_le (fun x => x) 7 [1, 2] [1, 1] 2 objective_fn.RationalScore true true
    rfl rfl (by simp) 0 1 2 (by decide) (by decide) (by decide)

end ScoreInequalities

/-! ## What `sweep_best__PG` returns -/

section SweepBest

variable {K : Type} [LinearOrderedField K]

theorem sweep_best__PG_loop_spec (PG : Int → Int → List K → List K → PartitionGraph K)
    (n : Int) (a b : List K) (m : Nat) :
    ∀ (i : Int) (st : K × K × List (List Int)), (i - 1).toNat = m →
      ((∀ T' : Int, 2 ≤ T' → T' ≤ i → st.1 ≤ (PG n T' a b).optimal_weight) →
        (sweep_best__PG.loop PG n a b i st).1 = st.1 ∧
        (sweep_best__PG.loop PG n a b i st).2.2 = st.2.2) ∧
      ((∃ T' : Int, 2 ≤ T' ∧ T' ≤ i ∧ (PG n T' a b).optimal_weight < st.1) →
        ∃ Ts : Int, 2 ≤ Ts ∧ Ts ≤ i ∧ (PG n Ts a b).optimal_weight < st.1 ∧
          (∀ T' : Int, 2 ≤ T' → T' ≤ i →
            (PG n Ts a b).optimal_weight ≤ (PG n T' a b).optimal_weight) ∧
          (∀ T' : Int, Ts < T' → T' ≤ i →
            (PG n Ts a b).optimal_weight < (PG n T' a b).optimal_weight) ∧
          (sweep_best__PG.loop PG n a b i st).1 = (PG n Ts a b).optimal_weight ∧
          (sweep_best__PG.loop PG n a b i st).2.2 = (PG n Ts a b).optimal_subsets) ∧
      (2 ≤ i → (sweep_best__PG.loop PG n a b i st).2.1 = (PG n 2 a b).optimal_weight) := by
  induction m with
  | zero =>
    intro i st h
    have hi : ¬ 1 < i := by omega
    rw [sweep_best__PG.loop, if_neg hi]
    refine ⟨fun _ => ⟨rfl, rfl⟩, ?_, fun h2 => absurd h2 (by omega)⟩
    rintro ⟨T', h1, h2, -⟩
    omega
  | succ m ih =>
    intro i st h
    have hi : 1 < i := by omega
    rw [sweep_best__PG.loop, if_pos hi]
    simp only
    by_cases hw : (PG n i a b).optimal_weight < st.1
    · rw [if_pos hw]
      obtain ⟨ihA, ihB, ihC⟩ := ih (i - 1)
        ((PG n i a b).optimal_weight, (PG n i a b).optimal_weight,
          (PG n i a b).optimal_subsets) (by omega)
      refine ⟨fun hall => absurd hw (not_lt.mpr (hall i (by omega) le_rfl)), fun _ => ?_,
        fun _ => ?_⟩
      · by_cases hex : ∃ T' : Int, 2 ≤ T' ∧ T' ≤ i - 1 ∧
            (PG n T' a b).optimal_weight < (PG n i a b).optimal_weight
        · obtain ⟨Ts, h1, h2, h3, h4, h5, h6, h7⟩ := ihB hex
          refine ⟨Ts, h1, by omega, lt_trans h3 hw, ?_, ?_, h6, h7⟩
          · intro T' hT1 hT2
            by_cases e : T' = i
            · subst e
              exact h3.le
            · exact h4 T' hT1 (by omega)
          · intro T' hT1 hT2
            by_cases e : T' = i
            · subst e
              exact h3
            · exact h5 T' hT1 (by omega)
        · have hall : ∀ T' : Int, 2 ≤ T' → T' ≤ i - 1 →
              (PG n i a b).optimal_weight ≤ (PG n T' a b).optimal_weight := by
            intro T' hT1 hT2
            by_contra hc
            exact hex ⟨T', hT1, hT2, not_le.mp hc⟩
          obtain ⟨e1, e2⟩ := ihA hall
          refine ⟨i, by omega, le_rfl, hw, ?_, ?_, e1, e2⟩
          · intro T' hT1 hT2
            by_cases e : T' = i
            · subst e
              exact le_rfl
            · exact hall T' hT1 (by omega)
          · intro T' hT1 hT2
            omega
      · by_cases e : i = 2
        · subst e
          rw [show (2 : Int) - 1 = 1 from rfl, sweep_best__PG.loop, if_neg (by decide)]
        · exact ihC (by omega)
    · rw [if_neg hw]
      obtain ⟨ihA, ihB, ihC⟩ := ih (i - 1)
        (st.1, (PG n i a b).optimal_weight, st.2.2) (by omega)
      refine ⟨fun hall => ihA fun T' hT1 hT2 => hall T' hT1 (by omega), ?_, fun _ => ?_⟩
      · rintro ⟨T', hT1, hT2, hT3⟩
        have hne : T' ≠ i := by
          rintro rfl
          exact hw hT3
        obtain ⟨Ts, h1, h2, h3, h4, h5, h6, h7⟩ := ihB ⟨T', hT1, by omega, hT3⟩
        refine ⟨Ts, h1, by omega, h3, ?_, ?_, h6, h7⟩
        · intro T'' hT1 hT2
          by_cases e : T'' = i
          · subst e
            exact le_trans h3.le (not_lt.mp hw)
          · exact h4 T'' hT1 (by omega)
        · intro T'' hT1 hT2
          by_cases e : T'' = i
          · subst e
            exact lt_of_lt_of_le h3 (not_lt.mp hw)
          · exact h5 T'' hT1 (by omega)
      · by_cases e : i = 2
        · subst e
          rw [show (2 : Int) - 1 = 1 from rfl, sweep_best__PG.loop, if_neg (by decide)]
        · exact ihC (by omega)

/-- C20: for `T ≥ 2` such that some weight of the sweep is below the initial sentinel (the
largest finite float), `sweep_best__PG` returns the optimal subsets of
`PartitionGraph(n, T*, a, b)`, where `T*` is the largest `T'` in `2..T` whose optimal weight
is minimal over the sweep, paired with the optimal weight of `PartitionGraph(n, 2, a, b)`,
the last weight computed. -/
theorem sweep_best__PG_result (PG : Int → Int → List K → List K → PartitionGraph K)
    (weight0 : K) (n T : Int) (a b : List K) (hT : 2 ≤ T)
    (hsome : ∃ T' : Int, 2 ≤ T' ∧ T' ≤ T ∧
      (PG n T' a b).optimal_weight < Objectives.FLT_MAX) :
    ∃ Ts : Int, 2 ≤ Ts ∧ Ts ≤ T ∧
      (∀ T' : Int, 2 ≤ T' → T' ≤ T →
        (PG n Ts a b).optimal_weight ≤ (PG n T' a b).optimal_weight) ∧
      (∀ T' : Int, Ts < T' → T' ≤ T →
        (PG n Ts a b).optimal_weight < (PG n T' a b).optimal_weight) ∧
      sweep_best__PG PG weight0 n T a b =
        ((PG n Ts a b).optimal_subsets, (PG n 2 a b).optimal_weight) := by
  obtain ⟨-, hB, hC⟩ := sweep_best__PG_loop_spec PG n a b (T - 1).toNat T
    (Objectives.FLT_MAX, weight0, []) rfl
  obtain ⟨Ts, h1, h2, -, h4, h5, -, h7⟩ := hB hsome
  refine ⟨Ts, h1, h2, h4, h5, ?_⟩
  rw [sweep_best__PG, h7, hC hT]

/-- Witness for C20: the partition graph of the specification on `n = 3`, `T = 3`,
`a = [1, 2, 4]`, `b = [1, 1, 1]`, whose weight for `T' = 3` is `-21`. -/
theorem sweep_best__PG_result_witness :
    ∃ Ts : Int, 2 ≤ Ts ∧ Ts ≤ 3 ∧
      (∀ T' : Int, 2 ≤ T' → T' ≤ 3 →
        (PartitionGraph.solve 3 Ts ([1, 2, 4] : List ℚ) [1, 1, 1]).optimal_weight ≤
          (PartitionGraph.solve 3 T' ([1, 2, 4] : List ℚ) [1, 1, 1]).optimal_weight) ∧
      (∀ T' : Int, Ts < T' → T' ≤ 3 →
        (PartitionGraph.solve 3 Ts ([1, 2, 4] : List ℚ) [1, 1, 1]).optimal_weight <
          (PartitionGraph.solve 3 T' ([1, 2, 4] : List ℚ) [1, 1, 1]).optimal_weight) ∧
      sweep_best__PG PartitionGraph.solve (0 : ℚ) 3 3 [1, 2, 4] [1, 1, 1] =
        ((PartitionGraph.solve 3 Ts ([1, 2, 4] : List ℚ) [1, 1, 1]).optimal_subsets,
          (PartitionGraph.solve 3 2 ([1, 2, 4] : List ℚ) [1, 1, 1]).optimal_weight) :=
  sweep_best__PG_result PartitionGraph.solve 0 3 3 [1, 2, 4] [1, 1, 1] (by decide)
    ⟨3, by decide, by decide, by
      rw [solve_three_parts]
      norm_num [Objectives.FLT_MAX]⟩

end SweepBest

/-! ## The read `a_[-1]` does not reach the tables -/

section MaskedRead

variable {K : Type} [LinearOrderedField K]

open Objectives

theorem innerAfter_tables_indep (v v' : K) (a b : List K) (n : Nat) (ha : a.length = n)
    (hb : b.length = n) (i : Nat) (s s' : PartialSumsState K)
    (hA : tableDims s.a_sums n (n + 1)) (hB : tableDims s.b_sums n (n + 1))
    (h0 : tableGet s.a_sums i i = 0 ∧ tableGet s.b_sums i i = 0)
    (eA : s.a_sums = s'.a_sums) (eB : s.b_sums = s'.b_sums) (d : Nat) (hd : i + d ≤ n) :
    (innerAfter v a b i s d).a_sums = (innerAfter v' a b i s' d).a_sums ∧
    (innerAfter v a b i s d).b_sums = (innerAfter v' a b i s' d).b_sums := by
  induction d with
  | zero => exact ⟨eA, eB⟩
  | succ d ih =>
    obtain ⟨ihA, ihB⟩ := ih (by omega)
    obtain ⟨-, -, hc, -, -⟩ := innerAfter_spec v a b n ha hb i s hA hB h0 d (by omega)
    obtain ⟨-, -, hc', -, -⟩ := innerAfter_spec v' a b n ha hb i s'
      (eA ▸ hA) (eB ▸ hB) (by rw [← eA, ← eB]; exact h0) d (by omega)
    have hlt : i + d < a.length := by omega
    have hltb : i + d < b.length := by omega
    have e1 : ((i + 1 + d : Nat) : Int) - 2 = ((i + d : Nat) : Int) - 1 := by push_cast; ring
    have e2 : ((i + 1 + d : Nat) : Int) - 1 = ((i + d : Nat) : Int) := by push_cast; ring
    rw [innerAfter_succ, innerAfter_succ]
    simp only [RationalScoreContext.innerBody, e1, e2, hc, hc', ihA, ihB]
    rw [readAt_of_lt v a _ hlt, readAt_of_lt v' a _ hlt, readAt_of_lt v b _ hltb,
      readAt_of_lt v' b _ hltb]
    exact ⟨rfl, rfl⟩

theorem outerAfter_tables_indep (v v' : K) (a b : List K) (n : Nat) (ha : a.length = n)
    (hb : b.length = n) (s : PartialSumsState K)
    (hA : tableDims s.a_sums n (n + 1)) (hB : tableDims s.b_sums n (n + 1))
    (h0 : ∀ i, i < n → tableGet s.a_sums i i = 0 ∧ tableGet s.b_sums i i = 0)
    (k : Nat) (hk : k ≤ n) :
    (outerAfter v a b n s k).a_sums = (outerAfter v' a b n s k).a_sums ∧
    (outerAfter v a b n s k).b_sums = (outerAfter v' a b n s k).b_sums := by
  induction k with
  | zero => exact ⟨rfl, rfl⟩
  | succ k ih =>
    obtain ⟨ihA, ihB⟩ := ih (Nat.le_of_succ_le hk)
    have hk' : k < n := hk
    obtain ⟨dA, dB, -, hdiag⟩ :=
      outerAfter_spec v a b n ha hb s hA hB h0 k (Nat.le_of_succ_le hk)
    have hstep : ∀ w : K, outerAfter w a b n s (k + 1) =
        innerAfter w a b k (outerAfter w a b n s k) (n - k) := by
      intro w
      simp [outerAfter, List.range_succ, List.foldl_append, outerBody_eq_innerAfter]
    rw [hstep v, hstep v']
    exact innerAfter_tables_indep v v' a b n ha hb k _ _ dA dB (hdiag k le_rfl hk') ihA ihB
      (n - k) (by omega)

/-- C16: the out-of-range read of `compute_partial_sums` is masked.  For every input and
any two values `v`, `v'` supplied for the read `a_[-1]`, the tables `a_sums_` and `b_sums_`
produced are the same in every cell, so the contexts and every score `compute_score(i, j)`
of the optimized path are the same. -/
theorem compute_partial_sums_indep_of_oob (v v' : K) (ctx : ParametricContext K)
    (ha : ctx.a_.length = ctx.n_) (hb : ctx.b_.length = ctx.n_) :
    (RationalScoreContext.compute_partial_sums v ctx).a_sums_ =
      (RationalScoreContext.compute_partial_sums v' ctx).a_sums_ ∧
    (RationalScoreContext.compute_partial_sums v ctx).b_sums_ =
      (RationalScoreContext.compute_partial_sums v' ctx).b_sums_ ∧
    ∀ (ln : K → K) (i j : Nat),
      compute_score ln (RationalScoreContext.compute_partial_sums v ctx) i j =
        compute_score ln (RationalScoreContext.compute_partial_sums v' ctx) i j := by
  obtain ⟨dA, dB, hz⟩ := initDiagonal_spec ctx.n_
    ({ a_cum := 0
       a_sums := List.replicate ctx.n_ (List.replicate (ctx.n_ + 1) FLT_MIN)
       b_sums := List.replicate ctx.n_ (List.replicate (ctx.n_ + 1) FLT_MIN) } :
      PartialSumsState K)
    (tableDims_replicate _ _ _) (tableDims_replicate _ _ _) ctx.n_ le_rfl
  obtain ⟨eA, eB⟩ :=
    outerAfter_tables_indep v v' ctx.a_ ctx.b_ ctx.n_ ha hb _ dA dB hz ctx.n_ le_rfl
  have hctx : RationalScoreContext.compute_partial_sums v ctx =
      RationalScoreContext.compute_partial_sums v' ctx := by
    simp only [RationalScoreContext.compute_partial_sums]
    simp only [outerAfter] at eA eB
    rw [eA, eB]
  exact ⟨by rw [hctx], by rw [hctx], fun ln i j => by rw [hctx]⟩

/-- Witness for C16: `a = [1, 2]`, `b = [3, 4]`, `n = 2`, with the values `7` and `-5` for
the read `a_[-1]`. -/
theorem compute_partial_sums_indep_of_oob_witness :
    (RationalScoreContext.compute_partial_sums (7 : ℚ)
      (ParametricContext.mk ContextClass.RationalScoreContext [1, 2] [3, 4] 2 [] []
        objective_fn.RationalScore true true)).a_sums_ =
    (RationalScoreContext.compute_partial_sums (-5 : ℚ)
      (ParametricContext.mk ContextClass.RationalScoreContext [1, 2] [3, 4] 2 [] []
        objective_fn.RationalScore true true)).a_sums_ :=
  (compute_partial_sums_indep_of_oob (7 : ℚ) (-5)
    (ParametricContext.mk ContextClass.RationalScoreContext [1, 2] [3, 4] 2 [] []
      objective_fn.RationalScore true true) rfl rfl).1

end MaskedRead

/-! ## The element accesses of `compute_partial_sums` -/

section AccessTraceTheorems

theorem filter_flatMap_eq_nil {α β : Type} (l : List α) (f : α → List β) (p : β → Bool)
    (h : ∀ x ∈ l, (f x).filter p = []) : (l.flatMap f).filter p = [] := by
  induction l with
  | nil => rfl
  | cons x t ih =>
    rw [List.flatMap_cons, List.filter_append, h x (List.mem_cons_self x t),
      ih (fun y hy => h y (List.mem_cons_of_mem x hy))]
    rfl

theorem diagonal_accesses_in_bounds (n i : Nat) (hi : i < n) :
    (diagonal_accesses i).filter (fun e => !e.in_bounds n) = [] := by
  have h1 : (i : Int) < n := by exact_mod_cast hi
  have h2 : (i : Int) < (n : Int) + 1 := by omega
  have h3 : (0 : Int) ≤ i := Int.natCast_nonneg i
  simp [diagonal_accesses, Access.in_bounds, h1, h2, h3]

theorem inner_accesses_in_bounds (n i j : Nat) (hi : i < n) (hj2 : 2 ≤ j) (hjn : j ≤ n) :
    (inner_accesses i j).filter (fun e => !e.in_bounds n) = [] := by
  have h1 : (i : Int) < n := by exact_mod_cast hi
  have h3 : (0 : Int) ≤ i := Int.natCast_nonneg i
  have h4 : (0 : Int) ≤ (j : Int) - 2 := by omega
  have h5 : (j : Int) - 2 < n := by omega
  have h6 : (0 : Int) ≤ (j : Int) - 1 := by omega
  have h7 : (j : Int) - 1 < n := by omega
  have h8 : (j : Int) - 1 < (n : Int) + 1 := by omega
  have h9 : (j : Int) < (n : Int) + 1 := by omega
  have h10 : (0 : Int) ≤ j := Int.natCast_nonneg j
  simp [inner_accesses, Access.in_bounds, h1, h3, h4, h5, h6, h7, h8, h9, h10]

theorem inner_accesses_first (n : Nat) (hn : 1 ≤ n) :
    (inner_accesses 0 1).filter (fun e => !e.in_bounds n) =
      [⟨AccessSite.cum_add, 0, 1, Container.a_, -1, 0⟩] := by
  have h1 : (0 : Int) < n := by exact_mod_cast hn
  have h2 : (1 : Int) < (n : Int) + 1 := by omega
  have h3 : (0 : Int) < (n : Int) + 1 := by omega
  simp [inner_accesses, Access.in_bounds, h1, h2, h3]

theorem outer_accesses_in_bounds (n i : Nat) (hi : i < n) (hi1 : 1 ≤ i) :
    (outer_accesses n i).filter (fun e => !e.in_bounds n) = [] := by
  have h1 : (0 : Int) ≤ (i : Int) - 1 := by omega
  have h2 : (i : Int) - 1 < n := by omega
  rw [outer_accesses, List.filter_cons_of_neg (by simp [Access.in_bounds, h1, h2])]
  apply filter_flatMap_eq_nil
  intro j hj
  rw [List.mem_range'_1] at hj
  exact inner_accesses_in_bounds n i j hi (by omega) (by omega)

theorem outer_accesses_first (n : Nat) (hn : 1 ≤ n) :
    (outer_accesses n 0).filter (fun e => !e.in_bounds n) =
      [⟨AccessSite.cum_init, 0, 0, Container.a_, -1, 0⟩,
       ⟨AccessSite.cum_add, 0, 1, Container.a_, -1, 0⟩] := by
  obtain ⟨k, rfl⟩ : ∃ k, n = k + 1 := ⟨n - 1, by omega⟩
  rw [outer_accesses, List.filter_cons_of_pos (by simp [Access.in_bounds]), Nat.sub_zero,
    Nat.zero_add, List.range'_succ, List.flatMap_cons, List.filter_append,
    inner_accesses_first _ hn, filter_flatMap_eq_nil]
  · rfl
  · intro j hj
    rw [List.mem_range'_1] at hj
    exact inner_accesses_in_bounds _ 0 j (by omega) (by omega) (by omega)

/-- C15: for every `n ≥ 1`, the accesses of `compute_partial_sums` that fall outside their
container are exactly two, both in the pass `i = 0` of the outer loop and both reading
`a_[-1]`: the read of `a_cum = -a_[i-1]` and the read of `a_cum += a_[j-2]` at `j = 1`.
Every other access to `a_`, `b_`, `a_sums_` and `b_sums_` is within bounds. -/
theorem compute_partial_sums_out_of_range (n : Nat) (hn : 1 ≤ n) :
    (compute_partial_sums_accesses n).filter (fun e => !e.in_bounds n) =
      [⟨AccessSite.cum_init, 0, 0, Container.a_, -1, 0⟩,
       ⟨AccessSite.cum_add, 0, 1, Container.a_, -1, 0⟩] := by
  obtain ⟨k, rfl⟩ : ∃ k, n = k + 1 := ⟨n - 1, by omega⟩
  rw [compute_partial_sums_accesses, List.filter_append, filter_flatMap_eq_nil,
    List.nil_append]
  · rw [List.range_eq_range', List.range'_succ, List.flatMap_cons, List.filter_append,
      outer_accesses_first _ hn, filter_flatMap_eq_nil]
    · rfl
    · intro i hi
      rw [List.mem_range'_1] at hi
      exact outer_accesses_in_bounds _ i (by omega) (by omega)
  · intro i hi
    exact diagonal_accesses_in_bounds _ i (List.mem_range.mp hi)

/-- Witness for C15 at `n = 3`. -/
theorem compute_partial_sums_out_of_range_witness :
    (compute_partial_sums_accesses 3).filter (fun e => !e.in_bounds 3) =
      [⟨AccessSite.cum_init, 0, 0, Container.a_, -1, 0⟩,
       ⟨AccessSite.cum_add, 0, 1, Container.a_, -1, 0⟩] :=
  compute_partial_sums_out_of_range 3 (by decide)

end AccessTraceTheorems

/-! ## The dynamic-programming solver of the specification -/

section DPSolverTheorems

variable {K : Type} [LinearOrderedField K]

theorem dp_fold_spec (cand : Nat → Option (K × Nat)) (sc : Nat → K) (l : List Nat) :
    ∀ init : Option (K × Nat),
      (∀ bv bm, init = some (bv, bm) →
        ∃ v m, l.foldl (fun best m =>
          match cand m with
          | none => best
          | some (v, _) => DPSolver.better best (v + sc m) m) init = some (v, m) ∧ bv ≤ v) ∧
      (∀ m ∈ l, ∀ v p, cand m = some (v, p) →
        ∃ rv rm, l.foldl (fun best m =>
          match cand m with
          | none => best
          | some (v, _) => DPSolver.better best (v + sc m) m) init = some (rv, rm) ∧
          v + sc m ≤ rv) ∧
      (∀ rv rm, l.foldl (fun best m =>
          match cand m with
          | none => best
          | some (v, _) => DPSolver.better best (v + sc m) m) init = some (rv, rm) →
        init = some (rv, rm) ∨ (rm ∈ l ∧ ∃ v p, cand rm = some (v, p) ∧ rv = v + sc rm)) := by
  induction l with
  | nil =>
    intro init
    refine ⟨fun bv bm h => ⟨bv, bm, h, le_rfl⟩, fun m hm => absurd hm (List.not_mem_nil m),
      fun rv rm h => Or.inl h⟩
  | cons x t ih =>
    intro init
    simp only [List.foldl_cons]
    cases hx : cand x with
    | none =>
      simp only
      obtain ⟨h1, h2, h3⟩ := ih init
      refine ⟨h1, ?_, ?_⟩
      · intro m hm v p hc
        rcases List.mem_cons.mp hm with e | hm'
        · subst e
          rw [hx] at hc
          exact absurd hc (by simp)
        · exact h2 m hm' v p hc
      · intro rv rm h
        rcases h3 rv rm h with e | ⟨hm, hr⟩
        · exact Or.inl e
        · exact Or.inr ⟨List.mem_cons_of_mem x hm, hr⟩
    | some vp =>
      obtain ⟨vx, px⟩ := vp
      simp only
      cases hinit : init with
      | none =>
        obtain ⟨h1, h2, h3⟩ := ih (some (vx + sc x, x))
        simp only [DPSolver.better]
        refine ⟨fun bv bm h => absurd h (by simp), ?_, ?_⟩
        · intro m hm v p hc
          rcases List.mem_cons.mp hm with e | hm'
          · subst e
            rw [hx] at hc
            obtain ⟨rfl, rfl⟩ := Prod.mk.inj (Option.some.inj hc)
            exact h1 _ _ rfl
          · exact h2 m hm' v p hc
        · intro rv rm h
          rcases h3 rv rm h with e | ⟨hm, hr⟩
          · obtain ⟨rfl, rfl⟩ := Prod.mk.inj (Option.some.inj e)
            exact Or.inr ⟨List.mem_cons_self _ _, vx, px, hx, rfl⟩
          · exact Or.inr ⟨List.mem_cons_of_mem x hm, hr⟩
      | some bvm =>
        obtain ⟨bv0, bm0⟩ := bvm
        simp only [DPSolver.better]
        by_cases hgt : vx + sc x > bv0
        · rw [if_pos hgt]
          obtain ⟨h1, h2, h3⟩ := ih (some (vx + sc x, x))
          refine ⟨?_, ?_, ?_⟩
          · intro bv bm h
            obtain ⟨rfl, rfl⟩ := Prod.mk.inj (Option.some.inj h)
            obtain ⟨v, m, hr, hle⟩ := h1 _ _ rfl
            exact ⟨v, m, hr, le_trans hgt.le hle⟩
          · intro m hm v p hc
            rcases List.mem_cons.mp hm with e | hm'
            · subst e
              rw [hx] at hc
              obtain ⟨rfl, rfl⟩ := Prod.mk.inj (Option.some.inj hc)
              exact h1 _ _ rfl
            · exact h2 m hm' v p hc
          · intro rv rm h
            rcases h3 rv rm h with e | ⟨hm, hr⟩
            · obtain ⟨rfl, rfl⟩ := Prod.mk.inj (Option.some.inj e)
              exact Or.inr ⟨List.mem_cons_self _ _, vx, px, hx, rfl⟩
            · exact Or.inr ⟨List.mem_cons_of_mem x hm, hr⟩
        · rw [if_neg hgt]
          obtain ⟨h1, h2, h3⟩ := ih (some (bv0, bm0))
          refine ⟨?_, ?_, ?_⟩
          · intro bv bm h
            obtain ⟨rfl, rfl⟩ := Prod.mk.inj (Option.some.inj h)
            exact h1 _ _ rfl
          · intro m hm v p hc
            rcases List.mem_cons.mp hm with e | hm'
            · subst e
              rw [hx] at hc
              obtain ⟨rfl, rfl⟩ := Prod.mk.inj (Option.some.inj hc)
              obtain ⟨v', m', hr, hle⟩ := h1 _ _ rfl
              exact ⟨v', m', hr, le_trans (not_lt.mp hgt) hle⟩
            · exact h2 m hm' v p hc
          · intro rv rm h
            rcases h3 rv rm h with e | ⟨hm, hr⟩
            · exact Or.inl e
            · exact Or.inr ⟨List.mem_cons_of_mem x hm, hr⟩

theorem dp_cell_eq_none (score : Nat → Nat → K) (t l : Nat) (h : l < t) :
    DPSolver.cell score t l = none := by
  match t with
  | 0 => rfl
  | 1 =>
    rw [DPSolver.cell, if_neg (by omega)]
  | t + 2 =>
    rw [DPSolver.cell, show l - (t + 1) = 0 by omega]
    rfl

theorem dp_cell_one (score : Nat → Nat → K) (l : Nat) (h : 1 ≤ l) :
    DPSolver.cell score 1 l = some (score 0 l, 0) := by
  rw [DPSolver.cell, if_pos h]

theorem dp_cell_some (score : Nat → Nat → K) (t : Nat) :
    ∀ l, t + 1 ≤ l → ∃ v m, DPSolver.cell score (t + 1) l = some (v, m) ∧ t ≤ m ∧ m < l := by
  induction t with
  | zero =>
    intro l hl
    exact ⟨score 0 l, 0, dp_cell_one score l hl, le_rfl, by omega⟩
  | succ t ih =>
    intro l hl
    obtain ⟨v0, m0, h0, -, -⟩ := ih (t + 1) le_rfl
    obtain ⟨-, h2, h3⟩ := dp_fold_spec (DPSolver.cell score (t + 1)) (fun m => score m l)
      (List.range' (t + 1) (l - (t + 1))) none
    obtain ⟨rv, rm, hr, -⟩ := h2 (t + 1) (by rw [List.mem_range'_1]; omega) v0 m0 h0
    refine ⟨rv, rm, ?_, ?_⟩
    · rw [DPSolver.cell]
      exact hr
    · rcases h3 rv rm hr with e | ⟨hm, -⟩
      · exact absurd e (by simp)
      · rw [List.mem_range'_1] at hm
        omega

theorem dp_cell_step (score : Nat → Nat → K) (t l : Nat) (v : K) (m : Nat)
    (h : DPSolver.cell score (t + 2) l = some (v, m)) :
    (t + 1 ≤ m ∧ m < l ∧ ∃ v' p, DPSolver.cell score (t + 1) m = some (v', p) ∧
      v = v' + score m l) ∧
    ∀ m', t + 1 ≤ m' → m' < l → ∀ v' p, DPSolver.cell score (t + 1) m' = some (v', p) →
      v' + score m' l ≤ v := by
  obtain ⟨-, h2, h3⟩ := dp_fold_spec (DPSolver.cell score (t + 1)) (fun m => score m l)
    (List.range' (t + 1) (l - (t + 1))) none
  rw [DPSolver.cell] at h
  constructor
  · rcases h3 v m h with e | ⟨hm, hr⟩
    · exact absurd e (by simp)
    · rw [List.mem_range'_1] at hm
      exact ⟨hm.1, by omega, hr⟩
  · intro m' h1 h1' v' p hc
    obtain ⟨rv, rm, hr, hle⟩ := h2 m' (by rw [List.mem_range'_1]; omega) v' p hc
    rw [h] at hr
    obtain ⟨rfl, rfl⟩ := Prod.mk.inj (Option.some.inj hr)
    exact hle

end DPSolverTheorems

section DPSolverStructure

variable {K : Type} [LinearOrderedField K]

theorem index_run_chain (L d : Nat) :
    List.Chain' (fun x y : Int => y = x + 1)
      ((List.range' L d).map (fun k : Nat => (k : Int))) := by
  induction d generalizing L with
  | zero => exact List.chain'_nil
  | succ d ih =>
    rw [List.range'_succ, List.map_cons, List.chain'_cons']
    refine ⟨?_, ih (L + 1)⟩
    intro y hy
    cases d with
    | zero => simp [List.range'] at hy
    | succ d =>
      rw [List.range'_succ, List.map_cons, List.head?_cons] at hy
      rw [← Option.some.inj hy]
      push_cast
      rfl

theorem dp_parts_structure (score : Nat → Nat → K) (t : Nat) :
    ∀ l, t ≤ l → (t = 0 → l = 0) →
      (DPSolver.parts score t l).length = t ∧
      (∀ p ∈ DPSolver.parts score t l, p.1 < p.2) ∧
      ((DPSolver.parts score t l).map (fun p => List.range' p.1 (p.2 - p.1))).flatten
        = List.range l := by
  induction t with
  | zero =>
    intro l _ h0
    rw [h0 rfl]
    simp [DPSolver.parts]
  | succ t ih =>
    intro l hl _
    obtain ⟨v, m, hc, hm1, hm2⟩ := dp_cell_some score t l hl
    have hm0 : t = 0 → m = 0 := by
      intro e
      subst e
      rw [dp_cell_one score l hl] at hc
      exact ((Prod.mk.inj (Option.some.inj hc)).2).symm
    obtain ⟨h1, h2, h3⟩ := ih m hm1 hm0
    simp only [DPSolver.parts, hc]
    refine ⟨by simp [h1], ?_, ?_⟩
    · intro p hp
      rcases List.mem_append.mp hp with hp' | hp'
      · exact h2 p hp'
      · rw [List.mem_singleton] at hp'
        subst hp'
        exact hm2
    · rw [List.map_append, List.flatten_append, h3]
      simp only [List.map_cons, List.map_nil, List.flatten_cons, List.flatten_nil,
        List.append_nil]
      rw [List.range_eq_range', List.range_eq_range']
      have := List.range'_append_1 0 m (l - m)
      rw [show l - m + m = l by omega, Nat.zero_add] at this
      exact this

theorem is_ordered_partition_of_parts (n T : Nat) (parts : List (Nat × Nat))
    (h1 : parts.length = T) (h2 : ∀ p ∈ parts, p.1 < p.2)
    (h3 : (parts.map (fun p => List.range' p.1 (p.2 - p.1))).flatten = List.range n) :
    is_ordered_partition n T
      (parts.map (fun p => (List.range' p.1 (p.2 - p.1)).map (fun k : Nat => (k : Int)))) := by
  refine ⟨by simp [h1], ?_, ?_⟩
  · intro q hq
    obtain ⟨p, hp, rfl⟩ := List.mem_map.mp hq
    refine ⟨?_, index_run_chain _ _⟩
    have hlt := h2 p hp
    intro hnil
    have hlen := congrArg List.length hnil
    rw [List.length_map, List.length_range', List.length_nil] at hlen
    omega
  · rw [← h3, List.map_flatten, List.map_map]
    rfl

end DPSolverStructure

/-! ## The partition graph and the DP solver compute the same tables -/

section GraphVersusDP

variable {K : Type} [LinearOrderedField K]

theorem coe_list_eq_map (l : List Nat) :
    (List.map (fun k => (k : Int)) l : List Int) = l.map (fun k : Nat => (k : Int)) := by
  induction l with
  | nil => rfl
  | cons x t ih =>
    simp only [List.map_id', List.map_cons] at ih ⊢
    rw [← ih]
    rfl

theorem pg_fold_none (a b : List K) (prev : List (Option (K × Nat))) (j : Nat)
    (l : List Nat) (h : ∀ i ∈ l, prev.getD i none = none) (init : Option (K × Nat)) :
    l.foldl
      (fun best i =>
        match prev.getD i none with
        | none => best
        | some (d, _) =>
          match best with
          | none => some (d + PartitionGraph.edge_weight a b i j, i)
          | some (bd, bi) =>
            if d + PartitionGraph.edge_weight a b i j < bd then
              some (d + PartitionGraph.edge_weight a b i j, i)
            else some (bd, bi))
      init = init := by
  induction l generalizing init with
  | nil => rfl
  | cons x t ih =>
    rw [List.foldl_cons, h x (List.mem_cons_self x t)]
    exact ih (fun i hi => h i (List.mem_cons_of_mem x hi)) init

theorem pg_fold_sim (a b : List K) (prev : List (Option (K × Nat)))
    (cand : Nat → Option (K × Nat)) (j : Nat) (l : List Nat)
    (h : ∀ i ∈ l, prev.getD i none = (cand i).map neg_entry) (init : Option (K × Nat)) :
    l.foldl
      (fun best i =>
        match prev.getD i none with
        | none => best
        | some (d, _) =>
          match best with
          | none => some (d + PartitionGraph.edge_weight a b i j, i)
          | some (bd, bi) =>
            if d + PartitionGraph.edge_weight a b i j < bd then
              some (d + PartitionGraph.edge_weight a b i j, i)
            else some (bd, bi))
      (init.map neg_entry)
    = (l.foldl
      (fun best m =>
        match cand m with
        | none => best
        | some (v, _) => DPSolver.better best (v + range_score a b m j) m)
      init).map neg_entry := by
  induction l generalizing init with
  | nil => rfl
  | cons x t ih =>
    rw [List.foldl_cons, List.foldl_cons, h x (List.mem_cons_self x t)]
    have ih' := fun init' => ih (fun i hi => h i (List.mem_cons_of_mem x hi)) init'
    cases hx : cand x with
    | none => exact ih' init
    | some vp =>
      obtain ⟨v, p⟩ := vp
      have hw : -v + PartitionGraph.edge_weight a b x j = -(v + range_score a b x j) := by
        rw [PartitionGraph.edge_weight, range_score]
        ring
      cases init with
      | none =>
        simp only [Option.map_some', Option.map_none', neg_entry, DPSolver.better, hw]
        exact ih' (some (v + range_score a b x j, x))
      | some bvm =>
        obtain ⟨bv, bm⟩ := bvm
        simp only [Option.map_some', neg_entry, DPSolver.better, hw, neg_lt_neg_iff]
        by_cases hgt : bv < v + range_score a b x j
        · rw [if_pos hgt, if_pos hgt]
          exact ih' (some (v + range_score a b x j, x))
        · rw [if_neg hgt, if_neg hgt]
          exact ih' (some (bv, bm))

theorem layers_head_succ (n : Nat) (a b : List K) (t : Nat) :
    (PartitionGraph.layers n a b (t + 1)).headD [] =
      (List.range (n + 1)).map
        (PartitionGraph.relax_node a b ((PartitionGraph.layers n a b t).headD [])) := by
  rw [PartitionGraph.layers]
  rfl

theorem getD_map_range {β : Type} (f : Nat → Option β) (n j : Nat) (hj : j ≤ n) :
    ((List.range (n + 1)).map f).getD j none = f j := by
  rw [List.getD_eq_getElem?_getD, List.getElem?_map, List.getElem?_range (by omega)]
  rfl

theorem range_split (k j : Nat) (h : k ≤ j) :
    List.range j = List.range k ++ List.range' k (j - k) := by
  rw [List.range_eq_range', List.range_eq_range']
  have := List.range'_append_1 0 k (j - k)
  rw [show j - k + k = j by omega, Nat.zero_add] at this
  exact this.symm

theorem layers_head_one (n : Nat) (a b : List K) (j : Nat) (hj : j ≤ n) :
    ((PartitionGraph.layers n a b 1).headD []).getD j none =
      (DPSolver.cell (range_score a b) 1 j).map neg_entry := by
  rw [layers_head_succ, getD_map_range _ n j hj, PartitionGraph.relax_node]
  have h0 : ∀ i, i ≤ n → ((PartitionGraph.layers n a b 0).headD []).getD i none
      = if i = 0 then some ((0 : K), 0) else none := by
    intro i hi
    rw [PartitionGraph.layers, List.headD_cons, getD_map_range _ n i hi]
  cases j with
  | zero => rfl
  | succ j =>
    rw [dp_cell_one _ _ (by omega), range_split 1 (j + 1) (by omega), List.foldl_append]
    have e1 : List.range 1 = [0] := rfl
    rw [e1, List.foldl_cons, List.foldl_nil, h0 0 (by omega), if_pos rfl]
    simp only
    rw [pg_fold_none]
    · simp only [Option.map_some', neg_entry, PartitionGraph.edge_weight, range_score,
        zero_add]
    · intro i hi
      rw [List.mem_range'_1] at hi
      rw [h0 i (by omega), if_neg (by omega)]

theorem layers_head_eq_cell (n : Nat) (a b : List K) (t : Nat) :
    ∀ j, j ≤ n → ((PartitionGraph.layers n a b (t + 1)).headD []).getD j none =
      (DPSolver.cell (range_score a b) (t + 1) j).map neg_entry := by
  induction t with
  | zero => exact layers_head_one n a b
  | succ t ih =>
    intro j hj
    rw [layers_head_succ, getD_map_range _ n j hj, PartitionGraph.relax_node]
    by_cases hlt : j < t + 2
    · rw [dp_cell_eq_none _ _ _ hlt, pg_fold_none]
      · rfl
      · intro i hi
        rw [List.mem_range] at hi
        rw [ih i (by omega), dp_cell_eq_none _ _ _ (by omega)]
        rfl
    · have hpre := pg_fold_none a b ((PartitionGraph.layers n a b (t + 1)).headD []) j
        (List.range (t + 1))
        (fun i hi => by
          rw [List.mem_range] at hi
          rw [ih i (by omega), dp_cell_eq_none _ _ _ (by omega)]
          rfl) none
      have hsim := pg_fold_sim a b ((PartitionGraph.layers n a b (t + 1)).headD [])
        (DPSolver.cell (range_score a b) (t + 1)) j (List.range' (t + 1) (j - (t + 1)))
        (fun i hi => by
          rw [List.mem_range'_1] at hi
          exact ih i (by omega)) none
      rw [Option.map_none'] at hsim
      rw [range_split (t + 1) j (by omega), List.foldl_append, hpre, hsim, DPSolver.cell]

theorem dp_cell_split_lt (score : Nat → Nat → K) (t l : Nat) (v : K) (m : Nat)
    (h : DPSolver.cell score t l = some (v, m)) : m < l := by
  match t with
  | 0 => simp [DPSolver.cell] at h
  | 1 =>
    by_cases hl : 1 ≤ l
    · rw [dp_cell_one score l hl] at h
      obtain ⟨-, rfl⟩ := Prod.mk.inj (Option.some.inj h)
      omega
    · rw [DPSolver.cell, if_neg hl] at h
      exact absurd h (by simp)
  | t + 2 => exact (dp_cell_step score t l v m h).1.2.1

theorem decode_cons_layers (n : Nat) (a b : List K) (t : Nat)
    (layer : List (Option (K × Nat))) (j : Nat) :
    PartitionGraph.decode (layer :: PartitionGraph.layers n a b t) j =
      match layer.getD j none with
      | none => []
      | some (_, i) =>
        PartitionGraph.decode (PartitionGraph.layers n a b t) i ++
          [(List.range' i (j - i)).map (fun k : Nat => (k : Int))] := by
  cases t with
  | zero =>
    rw [PartitionGraph.layers, PartitionGraph.decode]
    · cases layer.getD j none with
      | none => rfl
      | some p => simp only [coe_list_eq_map]
    · intro h
      exact List.cons_ne_nil _ _ h
  | succ t =>
    rw [PartitionGraph.layers, PartitionGraph.decode]
    · cases layer.getD j none with
      | none => rfl
      | some p => simp only [coe_list_eq_map]
    · intro h
      exact List.cons_ne_nil _ _ h

theorem decode_layers_eq_parts (n : Nat) (a b : List K) (t : Nat) :
    ∀ j, j ≤ n → PartitionGraph.decode (PartitionGraph.layers n a b t) j =
      (DPSolver.parts (range_score a b) t j).map
        (fun p => (List.range' p.1 (p.2 - p.1)).map (fun k : Nat => (k : Int))) := by
  induction t with
  | zero =>
    intro j _
    rw [PartitionGraph.layers, PartitionGraph.decode, DPSolver.parts]
    rfl
  | succ t ih =>
    intro j hj
    have hhead := layers_head_eq_cell n a b t j hj
    rw [PartitionGraph.layers] at hhead ⊢
    rw [List.headD_cons] at hhead
    rw [decode_cons_layers, hhead, DPSolver.parts]
    cases hc : DPSolver.cell (range_score a b) (t + 1) j with
    | none => rfl
    | some vm =>
      obtain ⟨v, m⟩ := vm
      have hm := dp_cell_split_lt _ _ _ _ _ hc
      simp only [Option.map_some', neg_entry]
      rw [ih m (by omega), List.map_append]
      rfl

end GraphVersusDP

/-! ## The solvers on priority-sorted input -/

section SolverClaims

variable {K : Type} [LinearOrderedField K]

open Objectives

theorem dp_solve_rational (ln : K → K) (oob : K) (n T : Nat) (a b : List K) (rp : Bool) :
    DPSolver.solve ln oob n T a b objective_fn.RationalScore rp false =
      .ok
        { optimal_subsets := (DPSolver.parts (range_score a b) T n).map
            (fun p => (List.range' p.1 (p.2 - p.1)).map (fun k : Nat => (k : Int)))
          score_by_subset := (DPSolver.parts (range_score a b) T n).map
            (fun p => range_score a b p.1 p.2) } := by
  have hs : (fun i j =>
      match compute_score ln
        ({ cls := ContextClass.RationalScoreContext, a_ := a, b_ := b, n_ := n,
           a_sums_ := [], b_sums_ := [], parametric_dist_ := objective_fn.RationalScore,
           risk_partitioning_objective_ := rp, use_rational_optimization_ := false } :
          ParametricContext K) i j with
      | .ok x => x
      | .error _ => 0) = range_score a b := by
    funext i j
    cases rp <;> rfl
  have hs' : ∀ i j,
      (match compute_score ln
        ({ cls := ContextClass.RationalScoreContext, a_ := a, b_ := b, n_ := n,
           a_sums_ := [], b_sums_ := [], parametric_dist_ := objective_fn.RationalScore,
           risk_partitioning_objective_ := rp, use_rational_optimization_ := false } :
          ParametricContext K) i j with
      | .ok x => x
      | .error _ => 0) = range_score a b i j := fun i j => congrFun (congrFun hs i) j
  simp only [DPSolver.solve, DPSolver.context_class, construct, Int.toNat_ofNat, bind,
    Except.bind, pure, Except.pure, Bool.false_eq_true, if_false, hs, hs']

theorem dp_solve_ordered (ln : K → K) (oob : K) (n T : Nat) (a b : List K)
    (dist : objective_fn) (rp opt : Bool) (hT1 : 1 ≤ T) (hTn : T ≤ n)
    (hflag : opt = true → dist = objective_fn.RationalScore) :
    ∃ res, DPSolver.solve ln oob n T a b dist rp opt = .ok res ∧
      is_ordered_partition n T res.optimal_subsets := by
  have hctx : ∃ ctx, construct (DPSolver.context_class dist) oob a b n dist rp opt
      = .ok ctx := by
    cases opt
    · exact ⟨_, rfl⟩
    · rw [hflag rfl]
      exact ⟨_, rfl⟩
  obtain ⟨ctx, hctx⟩ := hctx
  simp only [DPSolver.solve, Int.toNat_ofNat, hctx, bind, Except.bind, pure, Except.pure]
  refine ⟨_, rfl, ?_⟩
  obtain ⟨h1, h2, h3⟩ := dp_parts_structure
    (fun i j => match compute_score ln ctx i j with
      | .ok x => x
      | .error _ => 0) T n hTn (by omega)
  exact is_ordered_partition_of_parts n T _ h1 h2 h3

theorem pg_solve_subsets (n T : Nat) (a b : List K) :
    (PartitionGraph.solve (n : Int) (T : Int) a b).optimal_subsets =
      (DPSolver.parts (range_score a b) T n).map
        (fun p => (List.range' p.1 (p.2 - p.1)).map (fun k : Nat => (k : Int))) := by
  simp only [PartitionGraph.solve, Int.toNat_ofNat]
  exact decode_layers_eq_parts n a b T n le_rfl

/-- C12: for every priority-sorted input of length `n` with every `b_i > 0` and every
`1 ≤ T ≤ n`, the subsets returned by `DPSolver` (any functional family and mode, the
optimization flag only with RationalScore) and by `PartitionGraph` are `T` non-empty runs
of consecutive increasing integers whose concatenation in part order is `0, 1, ..., n-1`. -/
theorem solvers_return_ordered_partition (ln : K → K) (oob : K) (n T : Nat) (a b : List K)
    (ha : a.length = n) (hb : b.length = n) (hsorted : priority_sorted a b)
    (hpos : ∀ y ∈ b, 0 < y) (hT1 : 1 ≤ T) (hTn : T ≤ n)
    (dist : objective_fn) (rp opt : Bool)
    (hflag : opt = true → dist = objective_fn.RationalScore) :
    (∃ res, DPSolver.solve ln oob n T a b dist rp opt = .ok res ∧
      is_ordered_partition n T res.optimal_subsets) ∧
    is_ordered_partition n T (PartitionGraph.solve (n : Int) (T : Int) a b).optimal_subsets := by
  refine ⟨dp_solve_ordered ln oob n T a b dist rp opt hT1 hTn hflag, ?_⟩
  rw [pg_solve_subsets]
  obtain ⟨h1, h2, h3⟩ := dp_parts_structure (range_score a b) T n hTn (by omega)
  exact is_ordered_partition_of_parts n T _ h1 h2 h3

/-- Witness for C12: `a = [1, 2, 4]`, `b = [1, 1, 1]`, `T = 2`, Gaussian multiple-cluster
scoring for the DP solver. -/
theorem solvers_return_ordered_partition_witness :
    (∃ res, DPSolver.solve (fun x : ℚ => x) 0 (3 : Nat) (2 : Nat) [1, 2, 4] [1, 1, 1]
        objective_fn.Gaussian false false = .ok res ∧
      is_ordered_partition 3 2 res.optimal_subsets) ∧
    is_ordered_partition 3 2
      (PartitionGraph.solve ((3 : Nat) : Int) ((2 : Nat) : Int)
        ([1, 2, 4] : List ℚ) [1, 1, 1]).optimal_subsets :=
  solvers_return_ordered_partition (fun x => x) 0 3 2 [1, 2, 4] [1, 1, 1] rfl rfl
    (by
      intro k hk
      have hk' : k = 0 ∨ k = 1 := by
        simp only [List.length_cons, List.length_nil] at hk
        omega
      rcases hk' with rfl | rfl <;> norm_num)
    (by simp) (by decide) (by decide) objective_fn.Gaussian false false (by simp)

/-- C13: for every priority-sorted input `(n, T, a, b)` with every `b_i > 0` and
`1 ≤ T ≤ n`, `PartitionGraph(n, T, a, b)` and
`DPSolver(n, T, a, b, RationalScore, risk_partitioning = true, optimization = false)` return
the same list of subsets: the same number of subsets and the same indices element by
element. -/
theorem partition_graph_eq_dp_solver (ln : K → K) (oob : K) (n T : Nat) (a b : List K)
    (ha : a.length = n) (hb : b.length = n) (hsorted : priority_sorted a b)
    (hpos : ∀ y ∈ b, 0 < y) (hT1 : 1 ≤ T) (hTn : T ≤ n) :
    ∃ res, DPSolver.solve ln oob n T a b objective_fn.RationalScore true false = .ok res ∧
      (PartitionGraph.solve (n : Int) (T : Int) a b).optimal_subsets = res.optimal_subsets := by
  refine ⟨_, dp_solve_rational ln oob n T a b true, ?_⟩
  rw [pg_solve_subsets]

/-- Witness for C13: `a = [1, 2, 4]`, `b = [1, 1, 1]`, `T = 2`. -/
theorem partition_graph_eq_dp_solver_witness :
    ∃ res, DPSolver.solve (fun x : ℚ => x) 0 (3 : Nat) (2 : Nat) [1, 2, 4] [1, 1, 1]
        objective_fn.RationalScore true false = .ok res ∧
      (PartitionGraph.solve ((3 : Nat) : Int) ((2 : Nat) : Int)
        ([1, 2, 4] : List ℚ) [1, 1, 1]).optimal_subsets = res.optimal_subsets :=
  partition_graph_eq_dp_solver (fun x => x) 0 3 2 [1, 2, 4] [1, 1, 1] rfl rfl
    (by
      intro k hk
      have hk' : k = 0 ∨ k = 1 := by
        simp only [List.length_cons, List.length_nil] at hk
        omega
      rcases hk' with rfl | rfl <;> norm_num)
    (by simp) (by decide) (by decide)

end SolverClaims

/-! ## Optimality of the DP solver for three parts, and the LTSS tie-out -/

section Optimality

variable {K : Type} [LinearOrderedField K]

open Objectives

theorem rational_obj_fold (a b : List K) (s d : Nat) :
    (List.range' s d).foldl
      (fun (p : K × K) ind => (p.1 + a.getD ind 0, p.2 + b.getD ind 0)) (0, 0)
      = (rangeSum a s (s + d), rangeSum b s (s + d)) := by
  induction d with
  | zero => simp [rangeSum]
  | succ d ih =>
    rw [List.range'_concat, List.foldl_append, ih, ← Nat.add_assoc, rangeSum_succ,
      rangeSum_succ]
    simp

theorem rational_obj_eq (a b : List K) (s e : Nat) (h : s < e) :
    rational_obj a b s e = (rangeSum a s e) ^ 2 / rangeSum b s e := by
  obtain ⟨d, rfl⟩ := Nat.exists_eq_add_of_le h.le
  rw [rational_obj, if_neg (by omega)]
  simp only [Nat.add_sub_cancel_left, rational_obj_fold, sq]

theorem range_score_eq (a b : List K) (i j : Nat) (h : i ≤ j) :
    range_score a b i j = (rangeSum a i j) ^ 2 / rangeSum b i j := by
  rw [range_score, accumulate_eq_rangeSum a i j h, accumulate_eq_rangeSum b i j h]

theorem range_score_split_le (a b : List K) (hpos : ∀ y ∈ b, 0 < y) (i m j : Nat)
    (him : i < m) (hmj : m < j) (hj : j ≤ b.length) :
    range_score a b i j ≤ range_score a b i m + range_score a b m j := by
  rw [range_score_eq a b i j (by omega), range_score_eq a b i m him.le,
    range_score_eq a b m j hmj.le, rangeSum_split a i m j him.le hmj.le,
    rangeSum_split b i m j him.le hmj.le]
  exact sq_div_add_le _ _ _ _ (rangeSum_pos b hpos i m him (by omega))
    (rangeSum_pos b hpos m j hmj hj)

theorem dp_three_parts (score : Nat → Nat → K) (n : Nat) (hn : 3 ≤ n) :
    ∃ x y, 0 < x ∧ x < y ∧ y < n ∧
      DPSolver.parts score 3 n = [(0, x), (x, y), (y, n)] ∧
      ∀ x' y', 0 < x' → x' < y' → y' < n →
        score 0 x' + score x' y' + score y' n ≤ score 0 x + score x y + score y n := by
  obtain ⟨v3, y, h3, -, -⟩ := dp_cell_some score 2 n hn
  obtain ⟨⟨hy1, hy2, v2, x, h2, e3⟩, hmax3⟩ := dp_cell_step score 1 n v3 y h3
  obtain ⟨⟨hx1, hx2, v1, p, h1, e2⟩, hmax2⟩ := dp_cell_step score 0 y v2 x h2
  rw [dp_cell_one score x (by omega)] at h1
  obtain ⟨rfl, -⟩ := Prod.mk.inj (Option.some.inj h1)
  subst e2
  subst e3
  refine ⟨x, y, by omega, hx2, hy2, ?_, ?_⟩
  · simp only [DPSolver.parts, h3, h2, dp_cell_one score x (by omega), List.nil_append,
      List.cons_append]
  · intro x' y' hx' hxy' hy'
    obtain ⟨v2', p', h2', -, -⟩ := dp_cell_some score 1 y' (by omega)
    obtain ⟨-, hmax2'⟩ := dp_cell_step score 0 y' v2' p' h2'
    have hA := hmax2' x' (by omega) hxy' (score 0 x') 0 (dp_cell_one score x' (by omega))
    have hB := hmax3 y' (by omega) hy' v2' p' h2'
    linarith

theorem index_run_head (L R : Nat) (h : L < R) :
    (((List.range' L (R - L)).map (fun k : Nat => (k : Int))).headD 0).toNat = L := by
  obtain ⟨d, rfl⟩ : ∃ d, R = L + (d + 1) := ⟨R - L - 1, by omega⟩
  rw [Nat.add_sub_cancel_left, List.range'_succ]
  simp

theorem index_run_last (L R : Nat) (h : L < R) :
    (((List.range' L (R - L)).map (fun k : Nat => (k : Int))).getLastD 0).toNat + 1 = R := by
  obtain ⟨d, rfl⟩ : ∃ d, R = L + (d + 1) := ⟨R - L - 1, by omega⟩
  rw [Nat.add_sub_cancel_left, List.range'_concat, List.map_append]
  simp
  omega

/-- C11: for every priority-sorted input `(a, b)` of length `n ≥ 3` with every `b_i > 0`
and every pair of split points `0 ≤ m1 ≤ m2 ≤ n`,
`rational_obj(a,b,0,m1) + rational_obj(a,b,m1,m2) + rational_obj(a,b,m2,n)` is at most the
sum of `rational_obj` over the three parts `[first index, last index + 1)` returned by
`DPSolver(n, 3, a, b, RationalScore, risk_partitioning = true, optimization = false)`. -/
theorem dp_solver_three_parts_optimal (ln : K → K) (oob : K) (n : Nat) (a b : List K)
    (ha : a.length = n) (hb : b.length = n) (hn : 3 ≤ n) (hsorted : priority_sorted a b)
    (hpos : ∀ y ∈ b, 0 < y) (m1 m2 : Nat) (h12 : m1 ≤ m2) (h2n : m2 ≤ n) :
    ∃ res p1 p2 p3,
      DPSolver.solve ln oob n (3 : Nat) a b objective_fn.RationalScore true false = .ok res ∧
      res.optimal_subsets = [p1, p2, p3] ∧
      rational_obj a b 0 m1 + rational_obj a b m1 m2 + rational_obj a b m2 n ≤
        rational_obj a b (p1.headD 0).toNat ((p1.getLastD 0).toNat + 1) +
        rational_obj a b (p2.headD 0).toNat ((p2.getLastD 0).toNat + 1) +
        rational_obj a b (p3.headD 0).toNat ((p3.getLastD 0).toNat + 1) := by
  obtain ⟨x, y, hx, hxy, hy, hparts, hopt⟩ := dp_three_parts (range_score a b) n hn
  refine ⟨_, (List.range' 0 (x - 0)).map (fun k : Nat => (k : Int)),
    (List.range' x (y - x)).map (fun k : Nat => (k : Int)),
    (List.range' y (n - y)).map (fun k : Nat => (k : Int)),
    dp_solve_rational ln oob n 3 a b true, ?_, ?_⟩
  · simp only [hparts, List.map_cons, List.map_nil]
  · have hobj : ∀ s e, s < e → rational_obj a b s e = range_score a b s e := by
      intro s e hse
      rw [rational_obj_eq a b s e hse, range_score_eq a b s e hse.le]
    have hzero : ∀ s, rational_obj a b s s = 0 := by
      intro s
      rw [rational_obj, if_pos rfl]
    have hsplit := fun i m j (h1 : i < m) (h2 : m < j) (h3 : j ≤ n) =>
      range_score_split_le a b hpos i m j h1 h2 (by omega)
    rw [index_run_head 0 x hx, index_run_last 0 x hx, index_run_head x y hxy,
      index_run_last x y hxy, index_run_head y n hy, index_run_last y n hy,
      hobj 0 x hx, hobj x y hxy, hobj y n hy]
    have hone : range_score a b 0 n ≤
        range_score a b 0 x + range_score a b x y + range_score a b y n := by
      have e1 := hsplit 0 1 n (by omega) (by omega) le_rfl
      have e2 := hsplit 1 2 n (by omega) (by omega) le_rfl
      have e3 := hopt 1 2 (by omega) (by omega) (by omega)
      linarith
    have htwo : ∀ m, 0 < m → m < n → range_score a b 0 m + range_score a b m n ≤
        range_score a b 0 x + range_score a b x y + range_score a b y n := by
      intro m hm0 hmn
      by_cases hm : 2 ≤ m
      · have e1 := hsplit 0 1 m (by omega) (by omega) (by omega)
        have e3 := hopt 1 m (by omega) (by omega) hmn
        linarith
      · have hm1 : m = 1 := by omega
        subst hm1
        have e2 := hsplit 1 2 n (by omega) (by omega) le_rfl
        have e3 := hopt 1 2 (by omega) (by omega) (by omega)
        linarith
    rcases Nat.eq_zero_or_pos m1 with h0 | h0
    · subst h0
      rw [hzero 0]
      rcases Nat.eq_zero_or_pos m2 with h0' | h0'
      · subst h0'
        rw [hzero 0, hobj 0 n (by omega)]
        linarith
      · rcases Nat.lt_or_ge m2 n with hlt | hge
        · rw [hobj 0 m2 h0', hobj m2 n hlt]
          have := htwo m2 h0' hlt
          linarith
        · have e : m2 = n := by omega
          subst e
          rw [hzero m2, hobj 0 m2 h0']
          linarith
    · rcases Nat.lt_or_ge m1 m2 with hlt12 | hge12
      · rcases Nat.lt_or_ge m2 n with hlt | hge
        · rw [hobj 0 m1 h0, hobj m1 m2 hlt12, hobj m2 n hlt]
          exact hopt m1 m2 h0 hlt12 hlt
        · have e : m2 = n := by omega
          subst e
          rw [hzero m2, hobj 0 m1 h0, hobj m1 m2 hlt12]
          have := htwo m1 h0 hlt12
          linarith
      · have e : m1 = m2 := by omega
        subst e
        rw [hzero m1]
        rcases Nat.lt_or_ge m1 n with hlt | hge
        · rw [hobj 0 m1 h0, hobj m1 n hlt]
          have := htwo m1 h0 hlt
          linarith
        · have e : m1 = n := by omega
          subst e
          rw [hzero m1, hobj 0 m1 h0]
          linarith

/-- Witness for C11: `a = [1, 2, 4]`, `b = [1, 1, 1]`, split points `m1 = 0`, `m2 = 2`. -/
theorem dp_solver_three_parts_optimal_witness :
    ∃ res p1 p2 p3,
      DPSolver.solve (fun x : ℚ => x) 0 (3 : Nat) (3 : Nat) [1, 2, 4] [1, 1, 1]
        objective_fn.RationalScore true false = .ok res ∧
      res.optimal_subsets = [p1, p2, p3] ∧
      rational_obj ([1, 2, 4] : List ℚ) [1, 1, 1] 0 0 + rational_obj [1, 2, 4] [1, 1, 1] 0 2
          + rational_obj [1, 2, 4] [1, 1, 1] 2 3 ≤
        rational_obj [1, 2, 4] [1, 1, 1] (p1.headD 0).toNat ((p1.getLastD 0).toNat + 1) +
        rational_obj [1, 2, 4] [1, 1, 1] (p2.headD 0).toNat ((p2.getLastD 0).toNat + 1) +
        rational_obj [1, 2, 4] [1, 1, 1] (p3.headD 0).toNat ((p3.getLastD 0).toNat + 1) :=
  dp_solver_three_parts_optimal (fun x => x) 0 3 [1, 2, 4] [1, 1, 1] rfl rfl (by decide)
    (by
      intro k hk
      have hk' : k = 0 ∨ k = 1 := by
        simp only [List.length_cons, List.length_nil] at hk
        omega
      rcases hk' with rfl | rfl <;> norm_num)
    (by simp) 0 2 (by decide) (by decide)

/-- The two solvers as sections 4.3 and 4.4 of the specification describe them do not tie
out.  On `n = 3`, `a = [1, 2, 4]`, `b = [1, 1, 1]` (priority-sorted) the modelled DP solver
with `T = 2`, RationalScore, `risk_partitioning = false` returns the parts `[0, 1]` and
`[2]` (aggregate `9/2 + 16`, against `1 + 18` for the other split), while the modelled LTSS
solver returns the range `[1, 2]`, of maximal score `18`.  This is a statement about the
models only: `DP.hpp` and `LTSS.hpp` are not among the sources, and the test
`HighestScoringSetOf2TieOut` asserts the tie-out of the program itself. -/
theorem dp_second_subset_ne_ltss :
    DPSolver.solve (fun x : ℚ => x) 0 (3 : Nat) (2 : Nat) [1, 2, 4] [1, 1, 1]
        objective_fn.RationalScore false false
      = .ok { optimal_subsets := [[0, 1], [2]], score_by_subset := [9 / 2, 16] } ∧
    (LTSSSolver.solve ((3 : Nat) : Int) ([1, 2, 4] : List ℚ) [1, 1, 1]).optimal_subset
      = [1, 2] ∧
    (LTSSSolver.solve ((3 : Nat) : Int) ([1, 2, 4] : List ℚ) [1, 1, 1]).optimal_score
      = 18 := by
  refine ⟨?_, ?_, ?_⟩
  · rw [dp_solve_rational]
    norm_num [DPSolver.parts, DPSolver.cell, DPSolver.better, range_score, accumulate,
      List.range']
  · norm_num [LTSSSolver.solve, LTSSSolver.scan, accumulate, List.range, List.range.loop,
      List.range']
  · norm_num [LTSSSolver.solve, LTSSSolver.scan, accumulate, List.range, List.range.loop,
      List.range']

end Optimality

/-! ## Idempotence of the priority sort, and the test oracle -/

section SortIdempotent

variable {K : Type} [LinearOrderedField K]

open Objectives

theorem priority_sorted_le (a b : List K) (h : priority_sorted a b) (i d : Nat)
    (hj : i + d < a.length) :
    a.getD i 0 / b.getD i 0 ≤ a.getD (i + d) 0 / b.getD (i + d) 0 := by
  induction d with
  | zero => exact le_rfl
  | succ d ih => exact le_trans (ih (by omega)) (h (i + d) (by omega))

theorem sort_indices_of_sorted (a b : List K) (h : priority_sorted a b) :
    sort_indices a b = List.range a.length := by
  have hp : (List.range a.length).Pairwise (fun x y => priority_comp a b y x = false) := by
    refine List.Pairwise.imp_of_mem ?_ (List.pairwise_lt_range a.length)
    intro x y _ hy hxy
    rw [priority_comp_eq_false_iff]
    obtain ⟨d, rfl⟩ := Nat.exists_eq_add_of_le hxy.le
    exact priority_sorted_le a b h x d (List.mem_range.mp hy)
  exact List.Sorted.insertionSort_eq hp

theorem sort_by_priority_of_sorted (a b : List K) (hlen : a.length = b.length)
    (h : priority_sorted a b) : sort_by_priority a b = (a, b) := by
  have h1 := sort_by_priority_fst a b
  have h2 := sort_by_priority_snd a b hlen
  rw [sort_indices_of_sorted a b h] at h1 h2
  rw [← list_eq_map_range a] at h1
  rw [hlen, ← list_eq_map_range b] at h2
  exact Prod.ext h1 h2

theorem sort_by_priority_output_sorted (a b : List K) (hlen : a.length = b.length) :
    priority_sorted (sort_by_priority a b).1 (sort_by_priority a b).2 := by
  intro k hk
  have hl := sort_indices_length a b
  have hk' : k + 1 < a.length := by
    rw [sort_by_priority_fst, List.length_map, hl] at hk
    exact hk
  rw [sort_by_priority_fst, sort_by_priority_snd a b hlen,
    getD_map_getD _ _ k (by omega), getD_map_getD _ _ k (by omega),
    getD_map_getD _ _ (k + 1) (by omega), getD_map_getD _ _ (k + 1) (by omega)]
  have h := List.pairwise_iff_getElem.mp (sort_indices_sorted a b) k (k + 1)
    (by omega) (by omega) (Nat.lt_succ_self k)
  simpa [List.getD_eq_getElem?_getD, List.getElem?_eq_getElem,
    show k < (sort_indices a b).length by omega,
    show k + 1 < (sort_indices a b).length by omega] using h

/-- C21: `sort_by_priority` is idempotent.  For sequences `a`, `b` of equal length with every
`b_i > 0`, applying it to its own output changes nothing, and it leaves unchanged any input
whose ratios `a_i/b_i` are already in ascending order. -/
theorem sort_by_priority_idempotent (a b : List K) (hlen : a.length = b.length)
    (hpos : ∀ y ∈ b, 0 < y) :
    sort_by_priority (sort_by_priority a b).1 (sort_by_priority a b).2
      = sort_by_priority a b ∧
    (priority_sorted a b → sort_by_priority a b = (a, b)) := by
  refine ⟨?_, sort_by_priority_of_sorted a b hlen⟩
  have hl : (sort_by_priority a b).1.length = (sort_by_priority a b).2.length := by
    rw [sort_by_priority_fst, sort_by_priority_snd a b hlen, List.length_map,
      List.length_map]
  exact sort_by_priority_of_sorted _ _ hl (sort_by_priority_output_sorted a b hlen)

/-- Witness for C21: `a = [3, 1, 2]`, `b = [1, 1, 1]`. -/
theorem sort_by_priority_idempotent_witness :
    sort_by_priority (sort_by_priority ([3, 1, 2] : List ℚ) [1, 1, 1]).1
        (sort_by_priority ([3, 1, 2] : List ℚ) [1, 1, 1]).2
      = sort_by_priority ([3, 1, 2] : List ℚ) [1, 1, 1] ∧
    (priority_sorted ([3, 1, 2] : List ℚ) [1, 1, 1] →
      sort_by_priority ([3, 1, 2] : List ℚ) [1, 1, 1] = ([3, 1, 2], [1, 1, 1])) :=
  sort_by_priority_idempotent [3, 1, 2] [1, 1, 1] rfl (by simp)

/-- C22: the test oracle agrees with the scoring context.  For `a`, `b` of length `n` and
every `0 ≤ start < end ≤ n`, `rational_obj(a, b, start, end)` is the value the unoptimized
`RationalScoreContext` returns from `compute_score(start, end)`, in either mode; and
`rational_obj(a, b, s, s) = 0` for every `s`. -/
theorem rational_obj_eq_compute_score (ln : K → K) (oob : K) (a b : List K) (n : Nat)
    (dist : objective_fn) (rp : Bool) (ha : a.length = n) (hb : b.length = n)
    (start stop : Nat) (hlt : start < stop) (hle : stop ≤ n) :
    (∃ ctx, construct ContextClass.RationalScoreContext oob a b n dist rp false = .ok ctx ∧
      compute_score ln ctx start stop = .ok (rational_obj a b start stop)) ∧
    ∀ s, rational_obj a b s s = 0 := by
  obtain ⟨ctx, hc, hs⟩ := rational_score_value ln oob a b n dist rp false ha hb
  refine ⟨⟨ctx, hc, ?_⟩, fun s => ?_⟩
  · rw [hs start stop hlt hle, rational_obj_eq a b start stop hlt]
  · rw [rational_obj, if_pos rfl]

/-- Witness for C22: `a = [1, 2, 4]`, `b = [1, 1, 1]`, range `[1, 3)`, risk-partitioning
mode. -/
theorem rational_obj_eq_compute_score_witness :
    (∃ ctx, construct ContextClass.RationalScoreContext (0 : ℚ) [1, 2, 4] [1, 1, 1] 3
        objective_fn.RationalScore true false = .ok ctx ∧
      compute_score (fun x => x) ctx 1 3
        = .ok (rational_obj ([1, 2, 4] : List ℚ) [1, 1, 1] 1 3)) ∧
    ∀ s, rational_obj ([1, 2, 4] : List ℚ) [1, 1, 1] s s = 0 :=
  rational_obj_eq_compute_score (fun x => x) 0 [1, 2, 4] [1, 1, 1] 3
    objective_fn.RationalScore true rfl rfl 1 3 (by decide) (by decide)

end SortIdempotent
